import Mathlib

/-!
# Verification of the CSER canonical-serialization subsystem of go-opera-asset

This development shallowly embeds the CSER codec of the repository:

* `utils/fast/buffer.go`   — raw byte streams (`fast.Reader`, `fast.Writer`)
* `utils/bits` (bits.go)   — unaligned bit streams (`bits.Reader`, `bits.Writer`)
* `utils/cser/read_writer.go` — primitive codec (U8..U64, U56, I64, Bool,
  FixedBytes, SliceBytes, BigInt) with canonical-minimality enforcement
* `utils/cser/binary.go`   — frame packer (bit/byte split + reverse varint suffix)
* `inter/event_serializer.go` — event header / payload codec
* unnamed parts: transaction codec, LLR vote packs and partial payload hashing

Go panics and returned errors are modelled with an explicit `Fail` outcome:
`Fail.panicF` corresponds to a Go `panic(...)` (recovered by the top-level
decode adapter and mapped to the malformed-encoding error, exactly as in
`UnmarshalBinaryAdapter`), `Fail.errF` to an ordinary returned `error`.
Machine integers are modelled as `Nat` with explicit `% 2^w` at type
boundaries; byte values inside streams are reduced `% 256` when read.
-/

/-- Error values of the codec, mirroring the `errors.New` values declared in
`utils/cser/read_writer.go`, `inter/event_serializer.go` and the tx codec,
plus `outOfRange` for Go's runtime slice-bounds panic and `valueTooBig` for
the `panic("Value too big")` in `Writer.U56`. -/
inductive GoErr where
  | malformedEncoding
  | nonCanonicalEncoding
  | tooLargeAlloc
  | tooLowEpoch
  | unknownVersion
  | serMalformedEvent
  | unknownTxType
  | legacyGasTooLow
  | valueTooBig
  | outOfRange
  | external
  deriving DecidableEq, Repr

/-- A failing outcome: either a Go `panic` carrying a value (`panicF`) or an
ordinary returned `error` (`errF`).  The distinction matters because
`UnmarshalBinaryAdapter` recovers panics and maps them all to
`ErrMalformedEncoding`, while returned errors propagate unchanged. -/
inductive Fail where
  | panicF (v : GoErr)
  | errF (v : GoErr)
  deriving DecidableEq, Repr

instance {ε α : Type} [DecidableEq ε] [DecidableEq α] : DecidableEq (Except ε α) :=
  fun a b =>
    match a, b with
    | .ok x, .ok y => if h : x = y then isTrue (by simp [h]) else isFalse (by simp [h])
    | .error x, .error y => if h : x = y then isTrue (by simp [h]) else isFalse (by simp [h])
    | .ok _, .error _ => isFalse (by simp)
    | .error _, .ok _ => isFalse (by simp)

/-! ## fast.Reader / fast.Writer (utils/fast/buffer.go)

The writer is just an accumulating byte list; the reader is a buffer plus a
forward-only cursor.  `Read`/`ReadByte` panic (slice bounds) when fewer bytes
remain than requested. -/

/-- `fast.Reader`: an immutable buffer and a read offset. -/
structure ByteReader where
  buf : List Nat
  off : Nat
  deriving DecidableEq, Repr

namespace ByteReader

/-- `fast.Reader.Read(n)`: return the next `n` bytes and advance; Go panics
with a slice-bounds error when `offset+n > len(buf)`. -/
def read (r : ByteReader) (n : Nat) : Except Fail (List Nat × ByteReader) :=
  if r.off + n ≤ r.buf.length then
    .ok (((r.buf.drop r.off).take n).map (· % 256), { r with off := r.off + n })
  else
    .error (.panicF .outOfRange)

/-- `fast.Reader.ReadByte()`. -/
def readByte (r : ByteReader) : Except Fail (Nat × ByteReader) :=
  if h : r.off < r.buf.length then
    .ok (r.buf.get ⟨r.off, h⟩ % 256, { r with off := r.off + 1 })
  else
    .error (.panicF .outOfRange)

/-- `fast.Reader.Position()`. -/
def position (r : ByteReader) : Nat := r.off

/-- `fast.Reader.Empty()`. -/
def empty (r : ByteReader) : Bool := r.buf.length == r.off

end ByteReader

/-! ## bits.Reader / bits.Writer (utils/bits, implementation embedded next to
bits_test.go)

Bits are stored LSB-first within each byte.  The writer keeps the index of
the next free bit in the last byte; the reader keeps a byte index and a bit
index.  In Go the cursor invariant `bitOffset < 8` always holds; states
violating it are unreachable, and the model returns an `outOfRange` panic
there (reads) or acts as the identity (writes) purely to make the recursion
well-founded. -/

/-- `bits.Writer`: accumulated bytes plus the bit offset into the last byte. -/
structure BitsWriter where
  bytes : List Nat
  bitOff : Nat
  deriving DecidableEq, Repr

namespace BitsWriter

/-- A fresh writer over an empty `bits.Array`. -/
def fresh : BitsWriter := ⟨[], 0⟩

/-- `writeIntoLastByte`: OR the (byte-truncated) shifted value into the last
byte, mirroring `a.Bytes[len(a.Bytes)-1] |= byte(v << a.bitOffset)`. -/
def writeIntoLast (w : BitsWriter) (v : Nat) : BitsWriter :=
  let i := w.bytes.length - 1
  let b := Nat.lor (w.bytes.getD i 0) ((v <<< w.bitOff) % 256)
  { w with bytes := w.bytes.set i b }

/-- Fueled recursion core of `bits.Writer.Write`; the entry point passes
`bits + 1` fuel, which strictly dominates the number of iterations (each
recursive step removes at least one bit), so the fuel-exhausted branch is
unreachable. -/
def writeAux : Nat → BitsWriter → Nat → Nat → BitsWriter
  | 0, w, _, _ => w
  | fuel + 1, w, bits, v =>
    let w1 : BitsWriter :=
      if w.bitOff = 0 then { w with bytes := w.bytes ++ [0] } else w
    if 8 ≤ w.bitOff then
      w1  -- unreachable: cursor invariant bitOff < 8 holds for all source writes
    else if bits ≤ 8 - w.bitOff then
      let w' := writeIntoLast w1 v
      if bits = 8 - w.bitOff then { w' with bitOff := 0 }
      else { w' with bitOff := w.bitOff + bits }
    else
      let w' := writeIntoLast w1 (v % 2 ^ (8 - w.bitOff))
      writeAux fuel { w' with bitOff := 0 } (bits - (8 - w.bitOff)) (v >>> (8 - w.bitOff))

/-- `bits.Writer.Write(bits, v)`: append the low `bits` bits of `v`
(LSB-first), spilling into fresh zero bytes as needed.
`zeroTopByteBits(v, bitOffset)` is `v & (0xff >> bitOffset)`, i.e.
`v % 2^(8-bitOffset)`. -/
def write (w : BitsWriter) (bits v : Nat) : BitsWriter :=
  writeAux (bits + 1) w bits v

end BitsWriter

/-- `bits.Reader`: the underlying bytes plus a byte cursor and a bit cursor. -/
structure BitsReader where
  bytes : List Nat
  byteOff : Nat
  bitOff : Nat
  deriving DecidableEq, Repr

namespace BitsReader

/-- `bits.Reader.Read(bits)`: consume `bits` bits (LSB-first).  Reading `0`
bits returns `0`.  Accessing a byte past the end of the buffer is Go's
index-out-of-range panic.  Within a byte the value is
`(b & (0xff >> (8-(bitOff+bits)))) >> bitOff`, i.e.
`b % 2^(bitOff+bits) / 2^bitOff`. -/
def readAux : Nat → BitsReader → Nat → Except Fail (Nat × BitsReader)
  | 0, r, _ => .ok (0, r)
  | fuel + 1, r, bits =>
    if bits = 0 then .ok (0, r)
    else if 8 ≤ r.bitOff then
      .error (.panicF .outOfRange)  -- unreachable: cursor invariant bitOff < 8
    else
      match r.bytes.get? r.byteOff with
      | none => .error (.panicF .outOfRange)
      | some b0 =>
        let b := b0 % 256
        let free := 8 - r.bitOff
        if bits ≤ free then
          let v := b % 2 ^ (r.bitOff + bits) / 2 ^ r.bitOff
          if bits = free then
            .ok (v, { r with byteOff := r.byteOff + 1, bitOff := 0 })
          else
            .ok (v, { r with bitOff := r.bitOff + bits })
        else
          let v := b / 2 ^ r.bitOff
          match readAux fuel { r with byteOff := r.byteOff + 1, bitOff := 0 } (bits - free) with
          | .error e => .error e
          | .ok (rest, r') => .ok (v + rest * 2 ^ free, r')

def read (r : BitsReader) (bits : Nat) : Except Fail (Nat × BitsReader) :=
  readAux (bits + 1) r bits

/-- `bits.Reader.View(bits)`: peek without advancing (the Go code clones the
reader struct and reads from the clone). -/
def view (r : BitsReader) (bits : Nat) : Except Fail Nat :=
  match r.read bits with
  | .error e => .error e
  | .ok (v, _) => .ok v

/-- `bits.Reader.NonReadBytes()`: count of not-fully-consumed bytes. -/
def nonReadBytes (r : BitsReader) : Nat := r.bytes.length - r.byteOff

/-- `bits.Reader.NonReadBits()`: `NonReadBytes()*8 - bitOffset`. -/
def nonReadBits (r : BitsReader) : Nat := r.nonReadBytes * 8 - r.bitOff

end BitsReader

/-! ## cser primitive codec (utils/cser/read_writer.go)

A `cser.Reader` couples a bit reader and a byte reader; a `cser.Writer`
couples a bit writer and a byte accumulator.  Decoding is explicit state
passing in the `Except Fail` monad. -/

/-- `cser.Reader`. -/
structure RState where
  bits : BitsReader
  bytes : ByteReader
  deriving DecidableEq, Repr

/-- `cser.Writer`. -/
structure WState where
  bits : BitsWriter
  bytes : List Nat
  deriving DecidableEq, Repr

/-- A fresh `cser.Writer`, as made by `NewWriter()`. -/
def WState.fresh : WState := ⟨BitsWriter.fresh, []⟩

/-- A decoding step: state in, value plus state out, or a failure. -/
def DecM (α : Type) : Type := RState → Except Fail (α × RState)

/-- Sequencing of decoding steps. -/
def dbind {α β : Type} (m : DecM α) (f : α → DecM β) : DecM β := fun s =>
  match m s with
  | .error e => .error e
  | .ok (a, s') => f a s'

/-- A pure decoding step. -/
def dpure {α : Type} (a : α) : DecM α := fun s => .ok (a, s)

/-- A failing decoding step. -/
def dfail {α : Type} (e : Fail) : DecM α := fun _ => .error e

/-- Run a bit-stream read inside a decoding step. -/
def dbits (n : Nat) : DecM Nat := fun s =>
  match s.bits.read n with
  | .error e => .error e
  | .ok (v, b') => .ok (v, { s with bits := b' })

/-- Run a byte-stream read inside a decoding step. -/
def dbytes (n : Nat) : DecM (List Nat) := fun s =>
  match s.bytes.read n with
  | .error e => .error e
  | .ok (v, b') => .ok (v, { s with bytes := b' })

/-! ### Compact (suffix) varint — inverted STOP bit -/

/-- `readUint64Compact`: decode the inverted-STOP varint, rejecting a
terminator byte that carries zero data bits after the first byte
(`panic(ErrNonCanonicalEncoding)`). -/
def readUint64CompactAux : Nat → ByteReader → Nat → Nat → Except Fail (Nat × ByteReader)
  | 0, _, _, _ => .error (.panicF .outOfRange)
  | fuel + 1, r, i, acc =>
    if h : r.off < r.buf.length then
      let chunk := r.buf.get ⟨r.off, h⟩ % 256
      let r' : ByteReader := { r with off := r.off + 1 }
      let word := chunk % 128
      let acc' := Nat.lor acc ((word <<< (7 * i)) % 2 ^ 64)
      if 128 ≤ chunk then
        -- STOP bit set
        if 0 < i ∧ word = 0 then .error (.panicF .nonCanonicalEncoding)
        else .ok (acc', r')
      else
        readUint64CompactAux fuel r' (i + 1) acc'
    else
      .error (.panicF .outOfRange)

/-- `readUint64Compact` entry point; the fuel `remaining + 1` dominates the
iteration count (each iteration consumes one buffered byte, and running out
of bytes panics). -/
def readUint64Compact (r : ByteReader) : Except Fail (Nat × ByteReader) :=
  readUint64CompactAux (r.buf.length - r.off + 1) r 0 0

/-! ### Little-endian bit-compact integers -/

/-- Fueled recursion core of `writeUint64BitCompact`; the iteration count is
`max minSize (base-256 digit count of v)`, dominated by the supplied fuel
`minSize + v + 1`. -/
def writeUint64BitCompactAux : Nat → Nat → Nat → List Nat × Nat
  | 0, _, _ => ([], 0)
  | fuel + 1, v, minSize =>
    if minSize = 0 ∧ v = 0 then ([], 0)
    else
      let rest := writeUint64BitCompactAux fuel (v / 256) (minSize - 1)
      (v % 256 :: rest.1, rest.2 + 1)

/-- `writeUint64BitCompact`: little-endian bytes of `v`, at least
`minSize` bytes, returning the bytes and the byte count written.  The Go
argument type is `uint64`. -/
def writeUint64BitCompact (v minSize : Nat) : List Nat × Nat :=
  writeUint64BitCompactAux (minSize + v % 2 ^ 64 + 1) (v % 2 ^ 64) minSize

/-- Little-endian value of a byte list (each byte reduced mod 256),
truncated to 64 bits, as accumulated by `readUint64BitCompact`. -/
def leVal : List Nat → Nat
  | [] => 0
  | b :: rest => (b % 256 + 256 * leVal rest) % 2 ^ 64

/-- `readUint64BitCompact(size)`: read `size` bytes, reassemble little-endian,
and `panic(ErrNonCanonicalEncoding)` when `size > 1` and the most significant
stored byte is zero.  Note the check is `size > 1`, not `size > minSize`. -/
def readUint64BitCompact (size : Nat) (r : ByteReader) :
    Except Fail (Nat × ByteReader) :=
  match r.read size with
  | .error e => .error e
  | .ok (buf, r') =>
    let last := buf.getLastD 0
    if 1 < size ∧ last % 256 = 0 then .error (.panicF .nonCanonicalEncoding)
    else .ok (leVal buf, r')

/-! ### Split-stream primitives -/

/-- `Reader.readU64_bits(minSize, bitsForSize)`. -/
def readU64bits (minSize bitsForSize : Nat) : DecM Nat := fun s =>
  match s.bits.read bitsForSize with
  | .error e => .error e
  | .ok (szOff, b') =>
    match readUint64BitCompact (szOff + minSize) s.bytes with
    | .error e => .error e
    | .ok (v, r') => .ok (v, ⟨b', r'⟩)

/-- `Writer.writeU64_bits(minSize, bitsForSize, v)`. -/
def writeU64bits (minSize bitsForSize v : Nat) (w : WState) : WState :=
  let p := writeUint64BitCompact v minSize
  { bits := w.bits.write bitsForSize (p.2 - minSize), bytes := w.bytes ++ p.1 }

/-- `Writer.U8`. -/
def wU8 (v : Nat) (w : WState) : WState := { w with bytes := w.bytes ++ [v % 256] }

/-- `Reader.U8`. -/
def rU8 : DecM Nat := fun s =>
  match s.bytes.readByte with
  | .error e => .error e
  | .ok (v, r') => .ok (v, { s with bytes := r' })

/-- `Writer.U16`. -/
def wU16 (v : Nat) (w : WState) : WState := writeU64bits 1 1 (v % 2 ^ 16) w

/-- `Reader.U16` (the Go result is cast `uint16(v64)`). -/
def rU16 : DecM Nat := dbind (readU64bits 1 1) fun v => dpure (v % 2 ^ 16)

/-- `Writer.U32`. -/
def wU32 (v : Nat) (w : WState) : WState := writeU64bits 1 2 (v % 2 ^ 32) w

/-- `Reader.U32` (cast `uint32(v64)`). -/
def rU32 : DecM Nat := dbind (readU64bits 1 2) fun v => dpure (v % 2 ^ 32)

/-- `Writer.U64`. -/
def wU64 (v : Nat) (w : WState) : WState := writeU64bits 1 3 (v % 2 ^ 64) w

/-- `Reader.U64`. -/
def rU64 : DecM Nat := readU64bits 1 3

/-- `Writer.U56`: panics ("Value too big") above `2^56 - 1`. -/
def wU56 (v : Nat) (w : WState) : Except Fail WState :=
  if 2 ^ 56 - 1 < v % 2 ^ 64 then .error (.panicF .valueTooBig)
  else .ok (writeU64bits 0 3 (v % 2 ^ 64) w)

/-- `Reader.U56`. -/
def rU56 : DecM Nat := readU64bits 0 3

/-- `Writer.Bool`: one bit. -/
def wBool (v : Bool) (w : WState) : WState :=
  { w with bits := w.bits.write 1 (if v then 1 else 0) }

/-- `Reader.Bool`. -/
def rBool : DecM Bool := dbind (dbits 1) fun v => dpure (v != 0)

/-- `Writer.I64`: sign bit then U64 of Go's `uint64(-v)` / `uint64(v)`. -/
def wI64 (v : Int) (w : WState) : WState :=
  let w := wBool (v < 0) w
  if v < 0 then wU64 ((-v).toNat % 2 ^ 64) w else wU64 (v.toNat % 2 ^ 64) w

/-- `Reader.I64`: rejects negative zero; `-int64(abs)` wraps at 2^63. -/
def rI64 : DecM Int :=
  dbind rBool fun neg =>
  dbind rU64 fun abs =>
  if neg ∧ abs = 0 then dfail (.panicF .nonCanonicalEncoding)
  else
    let absI : Int := if abs < 2 ^ 63 then (abs : Int) else (abs : Int) - 2 ^ 64
    dpure (if neg then
             (if -absI < 2 ^ 63 ∧ -(2 ^ 63 : Int) ≤ -absI then -absI else -absI - 2 ^ 64)
           else absI)

/-- `Writer.FixedBytes`. -/
def wFixed (v : List Nat) (w : WState) : WState :=
  { w with bytes := w.bytes ++ v.map (· % 256) }

/-- `Reader.FixedBytes(buf)`: reads exactly `len(buf)` bytes. -/
def rFixed (n : Nat) : DecM (List Nat) := dbytes n

/-- `Writer.SliceBytes`: U56 length prefix then the raw bytes. -/
def wSliceBytes (v : List Nat) (w : WState) : Except Fail WState :=
  match wU56 v.length w with
  | .error e => .error e
  | .ok w' => .ok (wFixed v w')

/-- `Reader.SliceBytes(maxLen)`: U56 length, `panic(ErrTooLargeAlloc)` above
`maxLen` BEFORE any allocation or read of the payload, then the raw bytes. -/
def rSliceBytes (maxLen : Nat) : DecM (List Nat) :=
  dbind rU56 fun size =>
  if maxLen < size then dfail (.panicF .tooLargeAlloc)
  else rFixed size

/-- Fueled recursion core of `natToBeBytes`; fuel `v` dominates the digit
count for every `v`. -/
def natToBeBytesAux : Nat → Nat → List Nat
  | 0, _ => []
  | fuel + 1, v =>
    if v = 0 then []
    else natToBeBytesAux fuel (v / 256) ++ [v % 256]

/-- Minimal big-endian bytes of a natural number (`big.Int.Bytes()`). -/
def natToBeBytes (v : Nat) : List Nat := natToBeBytesAux v v

/-- Big-endian value of a byte list (`big.Int.SetBytes`). -/
def beVal (l : List Nat) : Nat := l.foldl (fun acc b => acc * 256 + b % 256) 0

/-- `Writer.BigInt`: the magnitude's big-endian bytes inside a SliceBytes
(zero encodes as the empty slice; the sign is lost). -/
def wBigInt (v : Nat) (w : WState) : Except Fail WState :=
  wSliceBytes (if v = 0 then [] else natToBeBytes v) w

/-- `Reader.BigInt`: a SliceBytes of at most 512 bytes, big-endian value. -/
def rBigInt : DecM Nat :=
  dbind (rSliceBytes 512) fun buf => dpure (beVal buf)

/-- `PaddedBytes(b, n)`: left-pad with zeros to at least `n` bytes. -/
def paddedBytes (b : List Nat) (n : Nat) : List Nat :=
  if n ≤ b.length then b else List.replicate (n - b.length) 0 ++ b

/-! ## Frame packer (utils/cser/binary.go) -/

/-- `tail(b, cap)`: the last `cap` bytes (or all of `b` if shorter). -/
def tailBytes (b : List Nat) (cap : Nat) : List Nat :=
  if cap < b.length then b.drop (b.length - cap) else b

/-- `binaryToCSER`: parse the reversed suffix varint from the last ≤ 9 bytes,
strip it, and split the remainder into byte region and bit region.  The
malformed-encoding error is a returned error; varint panics propagate. -/
def binaryToCSER (raw : List Nat) : Except Fail (List Nat × List Nat) :=
  match readUint64Compact ⟨(tailBytes raw 9).reverse, 0⟩ with
  | .error e => .error e
  | .ok (bitsSize, rdr) =>
    let raw' := raw.take (raw.length - rdr.position)
    if raw'.length < bitsSize then .error (.errF .malformedEncoding)
    else .ok (raw'.drop (raw'.length - bitsSize), raw'.take (raw'.length - bitsSize))

/-- `UnmarshalBinaryAdapter`: split the blob, run the closure, then enforce
the trailing-consumption rules.  The deferred `recover()` maps EVERY panic —
including canonicality and allocation panics raised inside the closure — to
`ErrMalformedEncoding`; only returned errors propagate unchanged.  On success
the decoded value is returned. -/
def unmarshalBinaryAdapter {α : Type} (raw : List Nat) (f : DecM α) :
    Except GoErr α :=
  match binaryToCSER raw with
  | .error (.panicF _) => .error .malformedEncoding
  | .error (.errF e) => .error e
  | .ok (bbits, bbytes) =>
    match f ⟨⟨bbits, 0, 0⟩, ⟨bbytes, 0⟩⟩ with
    | .error (.panicF _) => .error .malformedEncoding
    | .error (.errF e) => .error e
    | .ok (a, s) =>
      if 1 < s.bits.nonReadBytes then .error .nonCanonicalEncoding
      else
        match s.bits.read s.bits.nonReadBits with
        | .error _ => .error .malformedEncoding  -- panic inside the deferred recover
        | .ok (tl, _) =>
          if tl ≠ 0 then .error .nonCanonicalEncoding
          else if ¬s.bytes.empty then .error .nonCanonicalEncoding
          else .ok a

/-! ## Event header codec (inter/event_serializer.go) -/

/-- `ProtocolMaxMsgSize`: 10 MiB hard cap. -/
def protocolMaxMsgSize : Nat := 10 * 1024 * 1024

/-- `MaxSerializationVersion`. -/
def maxSerializationVersion : Nat := 1

/-- Interpret a `uint64` bit pattern as Go `int64`. -/
def toI64 (n : Nat) : Int :=
  if n % 2 ^ 64 < 2 ^ 63 then (n % 2 ^ 64 : Nat) else (n % 2 ^ 64 : Nat) - 2 ^ 64

/-- Wrap an integer into the `int64` range (Go two's-complement overflow). -/
def wrapI64 (x : Int) : Int := (x + 2 ^ 63) % 2 ^ 64 - 2 ^ 63

/-- Go cast `uint64(x)` of an `int64` value. -/
def u64OfI64 (x : Int) : Nat := (x % 2 ^ 64).toNat

/-- Modelled from the spec: `EmptyPayloadHash(version)` lives in
`inter/event.go`, which is not among the provided sources.  Per the spec it is
"the version-dependent 32-byte constant" payload hash of an empty payload; it
is modelled as an arbitrary but fixed version-dependent 32-byte constant
(only equality with it is ever observed by the serializer). -/
def emptyPayloadHash (version : Nat) : List Nat :=
  List.replicate 31 0 ++ [version % 256]

/-- The event header exactly as consumed by `Event.MarshalCSER`: scalar
DAG coordinates, parents as raw 24-byte ids (4-byte big-endian epoch,
4-byte big-endian lamport, 16-byte suffix), optional 32-byte prev-epoch
hash, the four payload flags, the 32-byte payload hash and extra data. -/
structure EventHdr where
  version : Nat
  netForkID : Nat
  epoch : Nat
  lamport : Nat
  creator : Nat
  seq : Nat
  frame : Nat
  creationTime : Nat
  medianTime : Nat
  gasPowerUsed : Nat
  gpl0 : Nat
  gpl1 : Nat
  parents : List (List Nat)
  prevEpochHash : Option (List Nat)
  anyTxs : Bool
  anyMps : Bool
  anyEpochVote : Bool
  anyBlockVotes : Bool
  payloadHash : List Nat
  extra : List Nat
  deriving DecidableEq, Repr

/-- `hash.Event.Lamport()`: big-endian uint32 at bytes 4..8 of the id. -/
def parentLamport (p : List Nat) : Nat := beVal ((p.drop 4).take 4)

/-- The parents loop of `Event.MarshalCSER`: guard `e.Lamport() < p.Lamport()`
(malformed event), then U32 lamport difference and the 16-byte id suffix
`p.Bytes()[8:]`. -/
def marshalParents (eLamport : Nat) : List (List Nat) → WState → Except Fail WState
  | [], w => .ok w
  | p :: ps, w =>
    if eLamport % 2 ^ 32 < parentLamport p then .error (.errF .serMalformedEvent)
    else marshalParents eLamport ps (wFixed (p.drop 8) (wU32 (eLamport % 2 ^ 32 - parentLamport p) w))

/-- `Event.MarshalCSER`. -/
def eventMarshalCSER (e : EventHdr) (w0 : WState) : Except Fail WState :=
  let ver := e.version % 256
  let step1 : Except Fail WState :=
    if 0 < ver then .ok (wU8 ver { w0 with bits := w0.bits.write 2 0 })
    else if e.epoch % 2 ^ 32 < 256 then .error (.errF .tooLowEpoch)
    else .ok w0
  match step1 with
  | .error er => .error er
  | .ok w =>
    let w := if 0 < ver then wU16 e.netForkID w else w
    let w := wU32 e.epoch w
    let w := wU32 e.lamport w
    let w := wU32 e.creator w
    let w := wU32 e.seq w
    let w := wU32 e.frame w
    let w := wU64 e.creationTime w
    let w := wI64 (wrapI64 (toI64 e.creationTime - toI64 e.medianTime)) w
    let w := wU64 e.gasPowerUsed w
    let w := wU64 e.gpl0 w
    let w := wU64 e.gpl1 w
    let w := wU32 e.parents.length w
    match marshalParents e.lamport e.parents w with
    | .error er => .error er
    | .ok w =>
      let w := wBool e.prevEpochHash.isSome w
      let w := match e.prevEpochHash with
               | some hsh => wFixed hsh w
               | none => w
      let w := wBool e.anyTxs w
      let w := if 0 < ver then
                 wBool e.anyBlockVotes (wBool e.anyEpochVote (wBool e.anyMps w))
               else w
      let w := if e.anyTxs || e.anyMps || e.anyBlockVotes || e.anyEpochVote then
                 wFixed e.payloadHash w
               else w
      wSliceBytes e.extra w

/-- A decoded parent reference as built by the decoder's parents loop:
epoch from the header, lamport reconstructed by uint32 subtraction
`lamport - lamportDiff` (wrapping), and the raw bytes read for the id.
NOTE: the decoder declares `h := [24]byte{}` and calls `r.FixedBytes(h[:])`,
so it consumes 24 bytes per parent even though the encoder wrote only the
16-byte suffix `p.Bytes()[8:]`. -/
structure DecParent where
  epoch : Nat
  lamport : Nat
  idBytes : List Nat
  deriving DecidableEq, Repr

/-- Peek at the bit stream inside a decoding step (`r.BitsR.View`). -/
def dview (n : Nat) : DecM Nat := fun s =>
  match s.bits.view n with
  | .error e => .error e
  | .ok v => .ok (v, s)

/-- One iteration of the decoder's parents loop: U32 lamport difference, then
a 24-byte `FixedBytes` read into `h`, then `SetLamport(lamport - diff)`
(uint32 wrap-around, no underflow check). -/
def readParent (epoch lamport : Nat) : DecM DecParent :=
  dbind rU32 fun diff =>
  dbind (rFixed 24) fun h =>
  dpure ⟨epoch, (lamport % 2 ^ 32 + 2 ^ 32 - diff) % 2 ^ 32, h⟩

/-- The decoder's parents loop, `parentsNum` iterations. -/
def readParents (epoch lamport : Nat) : Nat → DecM (List DecParent)
  | 0 => dpure []
  | n + 1 =>
    dbind (readParent epoch lamport) fun p =>
    dbind (readParents epoch lamport n) fun ps =>
    dpure (p :: ps)

/-- The event header as populated by `eventUnmarshalCSER` into the mutable
event payload. -/
structure DecEvent where
  version : Nat
  netForkID : Nat
  epoch : Nat
  lamport : Nat
  creator : Nat
  seq : Nat
  frame : Nat
  creationTime : Nat
  medianTime : Nat
  gasPowerUsed : Nat
  gpl0 : Nat
  gpl1 : Nat
  parents : List DecParent
  prevEpochHash : Option (List Nat)
  anyTxs : Bool
  anyMps : Bool
  anyEpochVote : Bool
  anyBlockVotes : Bool
  payloadHash : List Nat
  extra : List Nat
  deriving DecidableEq, Repr

/-- `eventUnmarshalCSER`: the event-header decoder. -/
def eventUnmarshalCSER : DecM DecEvent :=
  dbind (dview 2) fun marker =>
  dbind (if marker = 0 then
           dbind (dbits 2) fun _ =>
           dbind rU8 fun v =>
           if v = 0 then dfail (.errF .nonCanonicalEncoding) else dpure v
         else dpure 0) fun version =>
  if maxSerializationVersion < version then dfail (.errF .unknownVersion)
  else
  dbind (if 0 < version then rU16 else dpure 0) fun netForkID =>
  dbind rU32 fun epoch =>
  dbind rU32 fun lamport =>
  dbind rU32 fun creator =>
  dbind rU32 fun seq =>
  dbind rU32 fun frame =>
  dbind rU64 fun creationTime =>
  dbind rI64 fun medianTimeDiff =>
  dbind rU64 fun gasPowerUsed =>
  dbind rU64 fun gpl0 =>
  dbind rU64 fun gpl1 =>
  dbind rU32 fun parentsNum =>
  if protocolMaxMsgSize / 24 < parentsNum then dfail (.errF .tooLargeAlloc)
  else
  dbind (readParents epoch lamport parentsNum) fun parents =>
  dbind rBool fun hasPrev =>
  dbind (if hasPrev then dbind (rFixed 32) fun hsh => dpure (some hsh)
         else dpure none) fun prevEpochHash =>
  dbind rBool fun anyTxs =>
  dbind (if 0 < version then rBool else dpure false) fun anyMps =>
  dbind (if 0 < version then rBool else dpure false) fun anyEpochVote =>
  dbind (if 0 < version then rBool else dpure false) fun anyBlockVotes =>
  dbind (if anyTxs || anyMps || anyEpochVote || anyBlockVotes then
           dbind (rFixed 32) fun ph =>
           if ph = emptyPayloadHash version then dfail (.errF .nonCanonicalEncoding)
           else dpure ph
         else dpure (emptyPayloadHash version)) fun payloadHash =>
  dbind (rSliceBytes protocolMaxMsgSize) fun extra =>
  if version = 0 ∧ epoch < 256 then dfail (.errF .tooLowEpoch)
  else dpure
    { version := version, netForkID := netForkID, epoch := epoch,
      lamport := lamport, creator := creator, seq := seq, frame := frame,
      creationTime := creationTime,
      medianTime := u64OfI64 (toI64 creationTime - medianTimeDiff),
      gasPowerUsed := gasPowerUsed, gpl0 := gpl0, gpl1 := gpl1,
      parents := parents, prevEpochHash := prevEpochHash,
      anyTxs := anyTxs, anyMps := anyMps, anyEpochVote := anyEpochVote,
      anyBlockVotes := anyBlockVotes, payloadHash := payloadHash,
      extra := extra }

/-! ## Transaction codec (unnamed part: CSER for Ethereum transactions) -/

/-- A transaction as consumed/produced by the CSER transaction codec.
Type 0 = legacy, 1 = access list, 2 = dynamic fee.  Unused fee fields are 0
(Go `nil`), matching which getters each branch of the codec touches. -/
structure Tx where
  txType : Nat
  nonce : Nat
  gas : Nat
  gasPrice : Nat
  gasTipCap : Nat
  gasFeeCap : Nat
  value : Nat
  toAddr : Option (List Nat)
  data : List Nat
  vSig : Nat
  rSig : Nat
  sSig : Nat
  chainId : Nat
  accessList : List (List Nat × List (List Nat))
  deriving DecidableEq, Repr

/-- `encodeSig`: `[32-byte R ∥ 32-byte S]`, each left-padded
(`PaddedBytes(x.Bytes(), 32)[:32]`). -/
def encodeSig (r s : Nat) : List Nat :=
  (paddedBytes (natToBeBytes r) 32).take 32 ++ (paddedBytes (natToBeBytes s) 32).take 32

/-- `decodeSig`. -/
def decodeSig (sig : List Nat) : Nat × Nat := (beVal (sig.take 32), beVal (sig.drop 32))

/-- The access-list loop of `TransactionMarshalCSER`. -/
def marshalAccessList : List (List Nat × List (List Nat)) → WState → WState
  | [], w => w
  | (addr, keys) :: rest, w =>
    let w := wFixed addr w
    let w := wU32 keys.length w
    let w := keys.foldl (fun w k => wFixed k w) w
    marshalAccessList rest w

/-- `TransactionMarshalCSER`. -/
def transactionMarshalCSER (tx : Tx) (w0 : WState) : Except Fail WState :=
  if ¬(tx.txType = 0 ∨ tx.txType = 1 ∨ tx.txType = 2) then .error (.errF .unknownTxType)
  else
    let step1 : Except Fail WState :=
      if tx.txType ≠ 0 then .ok (wU8 tx.txType { w0 with bits := w0.bits.write 6 0 })
      else if tx.gas % 2 ^ 64 ≤ 0xff then .error (.errF .legacyGasTooLow)
      else .ok w0
    match step1 with
    | .error er => .error er
    | .ok w =>
      let w := wU64 tx.nonce w
      let w := wU64 tx.gas w
      match (if tx.txType = 2 then
               match wBigInt tx.gasTipCap w with
               | .error er => .error er
               | .ok w => wBigInt tx.gasFeeCap w
             else wBigInt tx.gasPrice w) with
      | .error er => .error er
      | .ok w =>
        match wBigInt tx.value w with
        | .error er => .error er
        | .ok w =>
          let w := wBool tx.toAddr.isSome w
          let w := match tx.toAddr with
                   | some addr => wFixed addr w
                   | none => w
          match wSliceBytes tx.data w with
          | .error er => .error er
          | .ok w =>
            match wBigInt tx.vSig w with
            | .error er => .error er
            | .ok w =>
              let w := wFixed (encodeSig tx.rSig tx.sSig) w
              if tx.txType = 1 ∨ tx.txType = 2 then
                match wBigInt tx.chainId w with
                | .error er => .error er
                | .ok w =>
                  let w := wU32 tx.accessList.length w
                  .ok (marshalAccessList tx.accessList w)
              else .ok w

/-- One access-list entry of `TransactionUnmarshalCSER`: 20-byte address,
U32 key count (capped at `ProtocolMaxMsgSize/32`, a returned error), then
the 32-byte storage keys. -/
def readAccessTuple : DecM (List Nat × List (List Nat)) :=
  dbind (rFixed 20) fun addr =>
  dbind rU32 fun keysLen =>
  if protocolMaxMsgSize / 32 < keysLen then dfail (.errF .tooLargeAlloc)
  else
    dbind ((List.range keysLen).foldl
            (fun acc _ => dbind acc fun ks => dbind (rFixed 32) fun k => dpure (ks ++ [k]))
            (dpure [])) fun keys =>
    dpure (addr, keys)

/-- The access-list loop of `TransactionUnmarshalCSER`. -/
def readAccessList : Nat → DecM (List (List Nat × List (List Nat)))
  | 0 => dpure []
  | n + 1 =>
    dbind readAccessTuple fun t =>
    dbind (readAccessList n) fun ts =>
    dpure (t :: ts)

/-- `TransactionUnmarshalCSER`: peek 6 bits; when they are zero consume them
and read a U8 type byte, otherwise the type is 0 (legacy).  Dispatch happens
only after the common body: type 0 builds a legacy tx (NOTE: this includes a
type byte 0 read after a zero marker), types 1 and 2 read the typed
extension, anything else is `ErrUnknownTxType`. -/
def transactionUnmarshalCSER : DecM Tx :=
  dbind (dview 6) fun marker =>
  dbind (if marker = 0 then dbind (dbits 6) fun _ => rU8 else dpure 0) fun txType =>
  dbind rU64 fun nonce =>
  dbind rU64 fun gasLimit =>
  dbind (if txType = 2 then
           dbind rBigInt fun tip => dbind rBigInt fun fee => dpure (0, tip, fee)
         else
           dbind rBigInt fun price => dpure (price, 0, 0)) fun fees =>
  dbind rBigInt fun amount =>
  dbind rBool fun toExists =>
  dbind (if toExists then dbind (rFixed 20) fun a => dpure (some a)
         else dpure none) fun toA =>
  dbind (rSliceBytes protocolMaxMsgSize) fun data =>
  dbind rBigInt fun v =>
  dbind (rFixed 64) fun sig =>
  if txType = 0 then
    dpure { txType := 0, nonce := nonce, gas := gasLimit, gasPrice := fees.1,
            gasTipCap := 0, gasFeeCap := 0, value := amount, toAddr := toA,
            data := data, vSig := v, rSig := (decodeSig sig).1,
            sSig := (decodeSig sig).2, chainId := 0, accessList := [] }
  else if txType = 1 ∨ txType = 2 then
    dbind rBigInt fun chainId =>
    dbind rU32 fun accessListLen =>
    if protocolMaxMsgSize / 24 < accessListLen then dfail (.errF .tooLargeAlloc)
    else
      dbind (readAccessList accessListLen) fun accessList =>
      if txType = 1 then
        dpure { txType := 1, nonce := nonce, gas := gasLimit, gasPrice := fees.1,
                gasTipCap := 0, gasFeeCap := 0, value := amount, toAddr := toA,
                data := data, vSig := v, rSig := (decodeSig sig).1,
                sSig := (decodeSig sig).2, chainId := chainId, accessList := accessList }
      else
        dpure { txType := 2, nonce := nonce, gas := gasLimit, gasPrice := 0,
                gasTipCap := fees.2.1, gasFeeCap := fees.2.2, value := amount, toAddr := toA,
                data := data, vSig := v, rSig := (decodeSig sig).1,
                sSig := (decodeSig sig).2, chainId := chainId, accessList := accessList }
  else dfail (.errF .unknownTxType)

/-! ## Event payload codec (inter/event_serializer.go) -/

/-- `LlrEpochVote`: epoch index plus 32-byte vote digest. -/
structure LlrEpochVoteS where
  epoch : Nat
  vote : List Nat
  deriving DecidableEq, Repr

/-- `LlrBlockVotes`: start block, epoch, and the vote digests. -/
structure LlrBlockVotesS where
  start : Nat
  epoch : Nat
  votes : List (List Nat)
  deriving DecidableEq, Repr

/-- The full event payload as consumed by `EventPayload.MarshalCSER`.
The signature width (65 bytes) is taken from the spec (§4.7): the
`Signature` type is declared in `inter/event.go`, outside the provided
sources.  Misbehaviour proofs are opaque items (only their count and their
external encoding are observed). -/
structure EventPayloadS where
  ev : EventHdr
  sig : List Nat
  txs : List Tx
  mps : List (List Nat)
  epochVote : LlrEpochVoteS
  blockVotes : LlrBlockVotesS
  deriving DecidableEq, Repr

/-- `hash.Of(a, b, ...)`: the hash of the concatenation. -/
def hashOf (H : List Nat → List Nat) (parts : List (List Nat)) : List Nat :=
  H parts.join

/-- Big-endian 4-byte encoding (`bigendian.Uint32ToBytes`, `idx.Epoch.Bytes`). -/
def be4 (n : Nat) : List Nat :=
  [n / 2 ^ 24 % 256, n / 2 ^ 16 % 256, n / 2 ^ 8 % 256, n % 256]

/-- Big-endian 8-byte encoding (`idx.Block.Bytes`). -/
def be8 (n : Nat) : List Nat :=
  [n / 2 ^ 56 % 256, n / 2 ^ 48 % 256, n / 2 ^ 40 % 256, n / 2 ^ 32 % 256,
   n / 2 ^ 24 % 256, n / 2 ^ 16 % 256, n / 2 ^ 8 % 256, n % 256]

/-- `LlrEpochVote.Hash`: SHA-256 over epoch bytes then vote bytes. -/
def llrEpochVoteHash (H : List Nat → List Nat) (ev : LlrEpochVoteS) : List Nat :=
  H (be4 ev.epoch ++ ev.vote)

/-- `LlrBlockVotes.Hash`: SHA-256 over start, epoch, vote count and votes. -/
def llrBlockVotesHash (H : List Nat → List Nat) (bvs : LlrBlockVotesS) : List Nat :=
  H (be8 bvs.start ++ be4 bvs.epoch ++ be4 (bvs.votes.length % 2 ^ 32) ++ bvs.votes.join)

/-- `LlrSignedBlockVotes`: the signed locator (opaque here), the two sibling
digests and the carried block votes. -/
structure LlrSignedBlockVotesS where
  signed : List Nat
  txsAndMisbehaviourProofsHash : List Nat
  epochVoteHash : List Nat
  val : LlrBlockVotesS
  deriving DecidableEq, Repr

/-- `LlrSignedEpochVote`. -/
structure LlrSignedEpochVoteS where
  signed : List Nat
  txsAndMisbehaviourProofsHash : List Nat
  blockVotesHash : List Nat
  val : LlrEpochVoteS
  deriving DecidableEq, Repr

/-- `LlrSignedBlockVotes.CalcPayloadHash`:
`hash.Of(TxsAndMisbehaviourProofsHash, hash.Of(EpochVoteHash, Val.Hash()))`. -/
def calcPayloadHashBVs (H : List Nat → List Nat) (bvs : LlrSignedBlockVotesS) :
    List Nat :=
  hashOf H [bvs.txsAndMisbehaviourProofsHash,
            hashOf H [bvs.epochVoteHash, llrBlockVotesHash H bvs.val]]

/-- `LlrSignedEpochVote.CalcPayloadHash`:
`hash.Of(TxsAndMisbehaviourProofsHash, hash.Of(Val.Hash(), BlockVotesHash))`. -/
def calcPayloadHashEV (H : List Nat → List Nat) (ev : LlrSignedEpochVoteS) :
    List Nat :=
  hashOf H [ev.txsAndMisbehaviourProofsHash,
            hashOf H [llrEpochVoteHash H ev.val, ev.blockVotesHash]]

/-- `AsSignedBlockVotes`: extract a signed block-votes pack from a full event
payload.  `CalcTxHash`, `CalcMisbehaviourProofsHash` and
`AsSignedEventLocator` live in sources outside the provided set and are taken
as parameters (`calcTxHash`, `calcMpsHash`, `asLoc`). -/
def asSignedBlockVotes (H : List Nat → List Nat)
    (calcTxHash : List Tx → List Nat) (calcMpsHash : List (List Nat) → List Nat)
    (asLoc : EventPayloadS → List Nat) (e : EventPayloadS) : LlrSignedBlockVotesS :=
  let txsAndMps := hashOf H [calcTxHash e.txs, calcMpsHash e.mps]
  { signed := asLoc e,
    txsAndMisbehaviourProofsHash := txsAndMps,
    epochVoteHash := llrEpochVoteHash H e.epochVote,
    val := e.blockVotes }

/-- `AsSignedEpochVote`: extract a signed epoch-vote pack from a full event
payload. -/
def asSignedEpochVote (H : List Nat → List Nat)
    (calcTxHash : List Tx → List Nat) (calcMpsHash : List (List Nat) → List Nat)
    (asLoc : EventPayloadS → List Nat) (e : EventPayloadS) : LlrSignedEpochVoteS :=
  let txsAndMps := hashOf H [calcTxHash e.txs, calcMpsHash e.mps]
  { signed := asLoc e,
    txsAndMisbehaviourProofsHash := txsAndMps,
    blockVotesHash := llrBlockVotesHash H e.blockVotes,
    val := e.epochVote }

/-! ## Spec-side formulas (for refinement claims)

These two definitions follow the SPEC's words (§4.8 / claim C9), to be
compared against the source-derived `calcPayloadHash*` definitions. -/

/-- Claim C9's spec formula for a signed-block-votes pack:
`H( TxsAndMisbehaviourProofsHash ∥ H( EpochVoteHash ∥ H(carried block votes) ) )`. -/
def specReconstructedHashBlockVotes (H : List Nat → List Nat)
    (p : LlrSignedBlockVotesS) : List Nat :=
  H (p.txsAndMisbehaviourProofsHash ++ H (p.epochVoteHash ++ llrBlockVotesHash H p.val))

/-- Claim C9's spec formula for a signed-epoch-vote pack:
`H( TxsAndMisbehaviourProofsHash ∥ H( H(carried epoch vote) ∥ BlockVotesHash ) )`. -/
def specReconstructedHashEpochVote (H : List Nat → List Nat)
    (p : LlrSignedEpochVoteS) : List Nat :=
  H (p.txsAndMisbehaviourProofsHash ++ H (llrEpochVoteHash H p.val ++ p.blockVotesHash))

/-! ## Byte-region contributions of the writer primitives

Used to state the encode-side field layout of the event header (claim C5):
each primitive appends a pure function of its argument to the byte region. -/

/-- Byte-region bytes of `Writer.U16`. -/
def u16b (v : Nat) : List Nat := (writeUint64BitCompact (v % 2 ^ 16) 1).1

/-- Byte-region bytes of `Writer.U32`. -/
def u32b (v : Nat) : List Nat := (writeUint64BitCompact (v % 2 ^ 32) 1).1

/-- Byte-region bytes of `Writer.U64`. -/
def u64b (v : Nat) : List Nat := (writeUint64BitCompact (v % 2 ^ 64) 1).1

/-- Byte-region bytes of `Writer.I64` (the magnitude's little-endian bytes). -/
def i64b (v : Int) : List Nat :=
  if v < 0 then u64b (-v).toNat else u64b v.toNat

/-- Byte-region bytes of `Writer.U56` (after its range check). -/
def u56b (v : Nat) : List Nat := (writeUint64BitCompact (v % 2 ^ 64) 0).1

/-- Byte-region bytes of the encoder's parents loop: per parent a U32
lamport difference followed by the 16-byte suffix `p.Bytes()[8:]`. -/
def parentsB (eLamport : Nat) (ps : List (List Nat)) : List Nat :=
  (ps.map (fun p =>
    u32b (eLamport % 2 ^ 32 - parentLamport p) ++ (p.drop 8).map (· % 256))).join

/-- The byte-region contribution of all event-header fields written BEFORE
the optional payload hash (version marker through prev-epoch hash; the flag
bits live in the bit region). -/
def eventHeaderBytesPreHash (e : EventHdr) : List Nat :=
  let ver := e.version % 256
  (if 0 < ver then [ver] else []) ++
  (if 0 < ver then u16b e.netForkID else []) ++
  u32b e.epoch ++ u32b e.lamport ++ u32b e.creator ++ u32b e.seq ++ u32b e.frame ++
  u64b e.creationTime ++ i64b (wrapI64 (toI64 e.creationTime - toI64 e.medianTime)) ++
  u64b e.gasPowerUsed ++ u64b e.gpl0 ++ u64b e.gpl1 ++
  u32b e.parents.length ++ parentsB e.lamport e.parents ++
  (match e.prevEpochHash with
   | some h => h.map (· % 256)
   | none => [])

/-! ## Concrete test vectors -/

/-- A hand-assembled event-header blob: version 1, epoch 1, lamport 0, one
parent whose stored lamport difference is 1 (exceeding the header's own
lamport 0), no prev-epoch hash, all flags clear, empty extra. -/
def c6raw : List Nat :=
  [1, 0, 1, 0, 1, 1, 1, 0, 0, 0, 0, 0, 1, 1,
   9, 9, 9, 9, 9, 9, 9, 9, 9, 9, 9, 9, 9, 9, 9, 9, 9, 9, 9, 9, 9, 9, 9, 9,
   0, 0, 0, 0, 0, 0, 134]

/-- The event the decoder reconstructs from `c6raw`: the parent's lamport
has wrapped around to `0 - 1 mod 2^32 = 4294967295`. -/
def c6dec : DecEvent :=
  { version := 1, netForkID := 0, epoch := 1, lamport := 0, creator := 1,
    seq := 1, frame := 1, creationTime := 0, medianTime := 0,
    gasPowerUsed := 0, gpl0 := 0, gpl1 := 0,
    parents := [⟨1, 4294967295, List.replicate 24 9⟩],
    prevEpochHash := none, anyTxs := false, anyMps := false,
    anyEpochVote := false, anyBlockVotes := false,
    payloadHash := emptyPayloadHash 1, extra := [] }

/-- A 24-byte parent id: epoch 1, lamport 3, 16-byte suffix of 7s. -/
def pid3 : List Nat := [0, 0, 0, 1] ++ [0, 0, 0, 3] ++ List.replicate 16 7

/-- An event header with one parent (own lamport 5, parent lamport 3),
no flags, used to exhibit the encoder/decoder parent-width mismatch. -/
def e8 : EventHdr :=
  { version := 1, netForkID := 0, epoch := 1, lamport := 5, creator := 2,
    seq := 1, frame := 1, creationTime := 100, medianTime := 90,
    gasPowerUsed := 3, gpl0 := 4, gpl1 := 5, parents := [pid3],
    prevEpochHash := none, anyTxs := false, anyMps := false,
    anyEpochVote := false, anyBlockVotes := false,
    payloadHash := emptyPayloadHash 1, extra := [] }

/-- The event payload around `e8`: 65-byte zero signature, no transactions,
no misbehaviour proofs, no votes. -/
def p1 : EventPayloadS :=
  { ev := e8, sig := List.replicate 65 0, txs := [], mps := [],
    epochVote := ⟨0, List.replicate 32 0⟩, blockVotes := ⟨0, 0, []⟩ }

/-- Decoder input exhibiting the marker + type-byte-0 path of the
transaction decoder: the bit stream starts with six zero bits, the byte
stream holds type byte 0, nonce 1, gas 1, and a zero 64-byte signature. -/
def c7state : RState :=
  ⟨⟨[0, 0, 0, 0], 0, 0⟩, ⟨[0] ++ [1] ++ [1] ++ List.replicate 64 0, 0⟩⟩

/-- The legacy transaction the decoder builds from `c7state`. -/
def c7tx : Tx :=
  { txType := 0, nonce := 1, gas := 1, gasPrice := 0, gasTipCap := 0,
    gasFeeCap := 0, value := 0, toAddr := none, data := [], vSig := 0,
    rSig := 0, sSig := 0, chainId := 0, accessList := [] }

/-- A legacy transaction with gas 256 (> 0xFF), encodable. -/
def tx4 : Tx :=
  { txType := 0, nonce := 1, gas := 256, gasPrice := 1, gasTipCap := 0,
    gasFeeCap := 0, value := 0, toAddr := some (List.replicate 20 0),
    data := [], vSig := 27, rSig := 1, sSig := 1, chainId := 0, accessList := [] }


/-- An event header with the txs flag set (C5 instance data). -/
def eW : EventHdr :=
  ⟨1, 0, 1, 5, 2, 1, 1, 100, 90, 3, 4, 5, [], none, true, false, false, false,
   List.replicate 32 171, []⟩

/-- The writer state `Event.MarshalCSER` produces for `eW` on a fresh writer. -/
def wW : WState :=
  ⟨⟨[0, 0, 0, 0, 1], 7⟩,
   [1, 0, 1, 5, 2, 1, 1, 100, 10, 3, 4, 5, 0] ++ List.replicate 32 171⟩

/-- The reader state over `eW`'s encoded streams. -/
def c5s : RState :=
  ⟨⟨[0, 0, 0, 0, 1], 0, 0⟩,
   ⟨[1, 0, 1, 5, 2, 1, 1, 100, 10, 3, 4, 5, 0] ++ List.replicate 32 171, 0⟩⟩

/-- The header decoded from `c5s`. -/
def c5dec : DecEvent :=
  ⟨1, 0, 1, 5, 2, 1, 1, 100, 90, 3, 4, 5, [], none, true, false, false, false,
   List.replicate 32 171, []⟩

/-- The reader state after decoding `c5s`. -/
def c5s2 : RState :=
  ⟨⟨[0, 0, 0, 0, 1], 4, 7⟩,
   ⟨[1, 0, 1, 5, 2, 1, 1, 100, 10, 3, 4, 5, 0] ++ List.replicate 32 171, 45⟩⟩


/-- A legacy transaction with gas 1 (at most 0xFF), unencodable. -/
def txLow : Tx :=
  { txType := 0, nonce := 0, gas := 1, gasPrice := 0, gasTipCap := 0,
    gasFeeCap := 0, value := 0, toAddr := none, data := [], vSig := 0,
    rSig := 0, sSig := 0, chainId := 0, accessList := [] }

/-- The writer state `TransactionMarshalCSER` produces for `tx4` on a fresh
writer. -/
def tx4w : WState :=
  ⟨⟨[72, 16, 1], 3⟩,
   [1, 0, 1, 1, 1] ++ List.replicate 20 0 ++ [1, 27] ++
     (List.replicate 31 0 ++ [1] ++ List.replicate 31 0 ++ [1])⟩

/-- The reader state over `tx4`'s encoded streams. -/
def s4 : RState :=
  ⟨⟨[72, 16, 1], 0, 0⟩,
   ⟨[1, 0, 1, 1, 1] ++ List.replicate 20 0 ++ [1, 27] ++
      (List.replicate 31 0 ++ [1] ++ List.replicate 31 0 ++ [1]), 0⟩⟩

/-- The reader state after decoding `s4`. -/
def s4end : RState :=
  ⟨⟨[72, 16, 1], 2, 3⟩,
   ⟨[1, 0, 1, 1, 1] ++ List.replicate 20 0 ++ [1, 27] ++
      (List.replicate 31 0 ++ [1] ++ List.replicate 31 0 ++ [1]), 91⟩⟩

/-! # Theorems -/

set_option maxRecDepth 8000
set_option maxHeartbeats 1000000

/-- Inversion of a successful `dbind`. -/
theorem dbind_ok {α β : Type} {m : DecM α} {f : α → DecM β} {s : RState}
    {b : β} {s2 : RState} (h : dbind m f s = .ok (b, s2)) :
    ∃ a s1, m s = .ok (a, s1) ∧ f a s1 = .ok (b, s2) := by
  unfold dbind at h
  cases hm : m s with
  | error e => rw [hm] at h; exact absurd h (by simp)
  | ok p =>
    obtain ⟨a, s1⟩ := p
    rw [hm] at h
    exact ⟨a, s1, rfl, h⟩

/-- Claim C9: for a signed-block-votes pack the reconstructed payload hash is
`H(TxsAndMisbehaviourProofsHash ∥ H(EpochVoteHash ∥ H(carried block votes)))`,
and for a signed-epoch-vote pack it is
`H(TxsAndMisbehaviourProofsHash ∥ H(H(carried epoch vote) ∥ BlockVotesHash))` —
txs-and-mps first in the outer pair, epoch-vote hash before block-votes hash
in the inner pair. -/
theorem claim_C9_partial_hash_reconstruction_order (H : List Nat → List Nat)
    (pb : LlrSignedBlockVotesS) (pe : LlrSignedEpochVoteS) :
    calcPayloadHashBVs H pb = specReconstructedHashBlockVotes H pb ∧
    calcPayloadHashEV H pe = specReconstructedHashEpochVote H pe := by
  constructor <;>
    simp [calcPayloadHashBVs, calcPayloadHashEV, hashOf,
      specReconstructedHashBlockVotes, specReconstructedHashEpochVote]

/-- Claim C10: the two extractors bind to the same root — for every event
payload, `AsSignedBlockVotes(e).CalcPayloadHash()` equals
`AsSignedEpochVote(e).CalcPayloadHash()` (for any hash function and any
implementation of the out-of-repo helpers). -/
theorem claim_C10_extractor_agreement (H : List Nat → List Nat)
    (calcTxHash : List Tx → List Nat) (calcMpsHash : List (List Nat) → List Nat)
    (asLoc : EventPayloadS → List Nat) (e : EventPayloadS) :
    calcPayloadHashBVs H (asSignedBlockVotes H calcTxHash calcMpsHash asLoc e) =
      calcPayloadHashEV H (asSignedEpochVote H calcTxHash calcMpsHash asLoc e) := rfl

/-- Claim C6, counterexample: the header blob `c6raw` stores a parent lamport
difference of 1 while the header's own lamport is 0; the claim says decode
must fail with *malformed*, but the decoder succeeds, wrapping the parent
lamport around to `2^32 - 1`. -/
theorem claim_C6_counterexample :
    unmarshalBinaryAdapter c6raw eventUnmarshalCSER = .ok c6dec ∧
    c6dec.lamport = 0 ∧ c6dec.parents.map DecParent.lamport = [2 ^ 32 - 1] := by
  refine ⟨?_, rfl, rfl⟩
  simp [unmarshalBinaryAdapter, binaryToCSER, tailBytes, readUint64Compact,
    readUint64CompactAux, ByteReader.read, ByteReader.readByte, ByteReader.position,
    ByteReader.empty, eventUnmarshalCSER, dview, dbits, dbind, dpure, dfail,
    rU8, rU16, rU32, rU64, rI64, rU56, rBool, rFixed, dbytes, readU64bits,
    readUint64BitCompact, leVal, BitsReader.read, BitsReader.readAux, BitsReader.view,
    readParents, readParent, rSliceBytes, BitsReader.nonReadBytes, BitsReader.nonReadBits,
    emptyPayloadHash, maxSerializationVersion, protocolMaxMsgSize, u64OfI64,
    toI64, c6raw, c6dec, Nat.lor, Nat.bitwise]

/-- Claim C7, counterexample: on `c7state` the first six bits are zero, the
decoder consumes them and reads the type byte 0 — which is NOT in {1,2} —
yet decoding succeeds and yields a legacy (type 0) transaction. -/
theorem claim_C7_counterexample :
    transactionUnmarshalCSER c7state =
      .ok (c7tx, ⟨⟨[0, 0, 0, 0], 3, 1⟩,
                  ⟨[0] ++ [1] ++ [1] ++ List.replicate 64 0, 67⟩⟩) ∧
    c7tx.txType = 0 := by
  refine ⟨?_, rfl⟩
  simp [transactionUnmarshalCSER, c7state, c7tx, dview, dbits, dbind, dpure, dfail,
    rU8, rU16, rU32, rU64, rI64, rU56, rBool, rFixed, dbytes, readU64bits,
    readUint64BitCompact, leVal, BitsReader.read, BitsReader.readAux, BitsReader.view,
    rSliceBytes, rBigInt, beVal, decodeSig, ByteReader.read, ByteReader.readByte,
    protocolMaxMsgSize, Nat.lor, Nat.bitwise]

/-- Claim C3, counterexample: a blob whose closure reads a U32 stored as two
bytes `0x01 0x00` (superfluous leading zero, length offset 1).  Decode does
fail — but the panic recovery in `UnmarshalBinaryAdapter` surfaces the error
as *malformed*, not *non-canonical* as the claim states. -/
theorem claim_C3_counterexample :
    unmarshalBinaryAdapter [1, 0, 1, 129] rU32 = .error .malformedEncoding ∧
    GoErr.malformedEncoding ≠ GoErr.nonCanonicalEncoding := by
  refine ⟨?_, by decide⟩
  simp [unmarshalBinaryAdapter, binaryToCSER, tailBytes, readUint64Compact,
    readUint64CompactAux, ByteReader.read, ByteReader.readByte, ByteReader.position,
    ByteReader.empty, dbind, dpure, dfail, rU32, readU64bits, readUint64BitCompact,
    leVal, BitsReader.read, BitsReader.readAux, BitsReader.nonReadBytes,
    BitsReader.nonReadBits, Nat.lor, Nat.bitwise]

/-- Claim C4: `Reader.SliceBytes(max)` reads a U56 length `L`; when `L`
exceeds the bound it panics with *too-large-alloc* immediately — before any
buffer of size `L` is allocated or any payload byte is consumed — and when
`L` is within the bound (and the byte region holds `L` more bytes) it
returns exactly the next `L` raw bytes, advancing the byte cursor by `L`. -/
theorem claim_C4_slicebytes_alloc_bound (maxLen : Nat) (s : RState) (L : Nat)
    (s1 : RState) (h : rU56 s = .ok (L, s1)) :
    (maxLen < L → rSliceBytes maxLen s = .error (.panicF .tooLargeAlloc)) ∧
    (L ≤ maxLen → s1.bytes.off + L ≤ s1.bytes.buf.length →
      rSliceBytes maxLen s =
        .ok (((s1.bytes.buf.drop s1.bytes.off).take L).map (· % 256),
             { s1 with bytes := { s1.bytes with off := s1.bytes.off + L } })) := by
  constructor
  · intro hlt
    simp [rSliceBytes, dbind, h, if_pos hlt, dfail]
  · intro hle hav
    simp [rSliceBytes, dbind, h, Nat.not_lt.mpr hle, rFixed, dbytes,
      ByteReader.read, if_pos hav]

/-- Claim C4, witness: `L = 5` against bounds 3 (rejected before the read)
and 9 (all five payload bytes read). -/
theorem claim_C4_witness :
    rSliceBytes 3 ⟨⟨[1], 0, 0⟩, ⟨[5, 10, 20, 30, 40, 50], 0⟩⟩ =
      .error (.panicF .tooLargeAlloc) ∧
    rSliceBytes 9 ⟨⟨[1], 0, 0⟩, ⟨[5, 10, 20, 30, 40, 50], 0⟩⟩ =
      .ok ([10, 20, 30, 40, 50], ⟨⟨[1], 0, 3⟩, ⟨[5, 10, 20, 30, 40, 50], 6⟩⟩) := by
  have h : rU56 ⟨⟨[1], 0, 0⟩, ⟨[5, 10, 20, 30, 40, 50], 0⟩⟩ =
      .ok (5, ⟨⟨[1], 0, 3⟩, ⟨[5, 10, 20, 30, 40, 50], 1⟩⟩) := by decide
  constructor
  · exact (claim_C4_slicebytes_alloc_bound 3 _ 5 _ h).1 (by decide)
  · have h2 := (claim_C4_slicebytes_alloc_bound 9 _ 5 _ h).2 (by decide) (by decide)
    simpa using h2

/-- Claim C2: when the closure succeeds, the top-level decode returns the
*non-canonical* error exactly when more than one unread byte remains in the
bit region, or the unread bit-tail is non-zero, or the byte region is not
exhausted; otherwise it succeeds. -/
theorem claim_C2_trailing_consumption (raw : List Nat) (α : Type) (f : DecM α)
    (bbits bbytes : List Nat) (h1 : binaryToCSER raw = .ok (bbits, bbytes))
    (a : α) (s' : RState)
    (h2 : f ⟨⟨bbits, 0, 0⟩, ⟨bbytes, 0⟩⟩ = .ok (a, s'))
    (tl : Nat) (rr : BitsReader)
    (h3 : s'.bits.read s'.bits.nonReadBits = .ok (tl, rr)) :
    unmarshalBinaryAdapter raw f =
      if 1 < s'.bits.nonReadBytes ∨ tl ≠ 0 ∨ ¬s'.bytes.empty
      then .error .nonCanonicalEncoding
      else .ok a := by
  by_cases hnb : 1 < s'.bits.nonReadBytes
  · simp [unmarshalBinaryAdapter, h1, h2, hnb]
  · by_cases htl : tl = 0
    · by_cases hemp : s'.bytes.empty
      · simp [unmarshalBinaryAdapter, h1, h2, hnb, h3, htl, hemp]
      · simp [unmarshalBinaryAdapter, h1, h2, hnb, h3, htl, hemp]
    · simp [unmarshalBinaryAdapter, h1, h2, hnb, h3, htl]

/-- Claim C2, witness: a blob whose bit region byte `0x01` is never read by
the closure (non-zero bit-tail ⇒ *non-canonical*), and the empty blob
(everything consumed ⇒ success). -/
theorem claim_C2_witness :
    unmarshalBinaryAdapter [1, 129] (dpure 42) = .error .nonCanonicalEncoding ∧
    unmarshalBinaryAdapter [128] (dpure 7) = (.ok 7 : Except GoErr Nat) := by
  constructor
  · have h := claim_C2_trailing_consumption [1, 129] Nat (dpure 42) [1] []
      (by decide) 42 ⟨⟨[1], 0, 0⟩, ⟨[], 0⟩⟩ rfl 1 ⟨[1], 1, 0⟩ (by decide)
    simpa using h
  · have h := claim_C2_trailing_consumption [128] Nat (dpure 7) [] []
      (by decide) 7 ⟨⟨[], 0, 0⟩, ⟨[], 0⟩⟩ rfl 0 ⟨[], 0, 0⟩ (by decide)
    simpa using h

/-- Claim C3, amended: (1) a fixed-width integer stored with more than ONE
byte whose most significant stored byte is zero makes `readUint64BitCompact`
panic with the non-canonical error (the source check is `size > 1`, which
coincides with `size > minSize` for the minSize-1 types U16/U32/U64 but not
for U56); (2) the public decode entry point maps every panic raised inside
the closure — including this one — to *malformed*; (3) a U56 (minSize 0)
value stored as a single zero byte is accepted and decodes to 0. -/
theorem claim_C3_amended :
    (∀ (size : Nat) (r : ByteReader) (buf : List Nat) (r' : ByteReader),
        1 < size → r.read size = .ok (buf, r') → buf.getLastD 0 % 256 = 0 →
        readUint64BitCompact size r = .error (.panicF .nonCanonicalEncoding)) ∧
    (∀ (raw : List Nat) (α : Type) (f : DecM α) (bbits bbytes : List Nat) (ge : GoErr),
        binaryToCSER raw = .ok (bbits, bbytes) →
        f ⟨⟨bbits, 0, 0⟩, ⟨bbytes, 0⟩⟩ = .error (.panicF ge) →
        unmarshalBinaryAdapter raw f = .error .malformedEncoding) ∧
    rU56 ⟨⟨[1], 0, 0⟩, ⟨[0], 0⟩⟩ = .ok (0, ⟨⟨[1], 0, 3⟩, ⟨[0], 1⟩⟩) := by
  refine ⟨?_, ?_, by decide⟩
  · intro size r buf r' hsz hread hlast
    rw [List.getLastD_eq_getLast?] at hlast
    simp [readUint64BitCompact, hread, hsz, hlast]
  · intro raw α f bbits bbytes ge h1 h2
    simp [unmarshalBinaryAdapter, h1, h2]

/-- Claim C3, witness: U32 value 1 stored as `0x01 0x00` triggers the panic
at the primitive layer, and the public entry point surfaces it as
*malformed*; the single-zero-byte U56 case is closed in the theorem. -/
theorem claim_C3_witness :
    readUint64BitCompact 2 ⟨[1, 0], 0⟩ = .error (.panicF .nonCanonicalEncoding) ∧
    unmarshalBinaryAdapter [1, 0, 1, 129] rU32 = .error .malformedEncoding := by
  constructor
  · exact claim_C3_amended.1 2 ⟨[1, 0], 0⟩ [1, 0] ⟨[1, 0], 2⟩
      (by decide) (by decide) (by decide)
  · exact claim_C3_amended.2.1 [1, 0, 1, 129] Nat rU32 [1] [1, 0]
      .nonCanonicalEncoding (by decide) (by decide)

/-- Claim C6, amended: the decoder performs NO underflow check on the parent
lamport difference — each successfully decoded parent has
`lamport = (own_lamport - diff) mod 2^32`, wrapping around when the stored
difference exceeds the header's own lamport. -/
theorem claim_C6_amended (epoch lamport : Nat) (s : RState) (p : DecParent)
    (s' : RState) (h : readParent epoch lamport s = .ok (p, s')) :
    ∃ diff s1, rU32 s = .ok (diff, s1) ∧
      p.lamport = (lamport % 2 ^ 32 + 2 ^ 32 - diff) % 2 ^ 32 ∧ p.epoch = epoch := by
  obtain ⟨diff, s1, hd, hrest⟩ := dbind_ok h
  obtain ⟨hbytes, s2, hf, hp⟩ := dbind_ok hrest
  unfold dpure at hp
  refine ⟨diff, s1, hd, ?_, ?_⟩
  · have := (Except.ok.inj hp)
    have hpp : p = ⟨epoch, (lamport % 2 ^ 32 + 2 ^ 32 - diff) % 2 ^ 32, hbytes⟩ :=
      (Prod.mk.inj this).1.symm
    rw [hpp]
  · have := (Except.ok.inj hp)
    have hpp : p = ⟨epoch, (lamport % 2 ^ 32 + 2 ^ 32 - diff) % 2 ^ 32, hbytes⟩ :=
      (Prod.mk.inj this).1.symm
    rw [hpp]

/-- Claim C6, witness: own lamport 0 with stored difference 1 — the parent
decodes successfully and its lamport is `(0 + 2^32 - 1) mod 2^32 = 2^32-1`. -/
theorem claim_C6_amended_witness :
    ∃ diff s1,
      rU32 ⟨⟨[0], 0, 0⟩, ⟨[1, 9, 9, 9, 9, 9, 9, 9, 9, 9, 9, 9, 9,
                           9, 9, 9, 9, 9, 9, 9, 9, 9, 9, 9, 9], 0⟩⟩ = .ok (diff, s1) ∧
      (DecParent.mk 1 (2 ^ 32 - 1) (List.replicate 24 9)).lamport =
        (0 % 2 ^ 32 + 2 ^ 32 - diff) % 2 ^ 32 ∧
      (DecParent.mk 1 (2 ^ 32 - 1) (List.replicate 24 9)).epoch = 1 :=
  claim_C6_amended 1 0 _ ⟨1, 2 ^ 32 - 1, List.replicate 24 9⟩
    ⟨⟨[0], 0, 2⟩, ⟨[1, 9, 9, 9, 9, 9, 9, 9, 9, 9, 9, 9, 9,
                    9, 9, 9, 9, 9, 9, 9, 9, 9, 9, 9, 9], 25⟩⟩ (by decide)

/-- `Writer.U8` appends its byte. -/
theorem wU8_bytes (v : Nat) (w : WState) : (wU8 v w).bytes = w.bytes ++ [v % 256] := rfl

/-- `writeU64_bits` appends the little-endian compact bytes. -/
theorem writeU64bits_bytes (m b v : Nat) (w : WState) :
    (writeU64bits m b v w).bytes = w.bytes ++ (writeUint64BitCompact v m).1 := rfl

/-- `Writer.U16` appends `u16b`. -/
theorem wU16_bytes (v : Nat) (w : WState) : (wU16 v w).bytes = w.bytes ++ u16b v := rfl

/-- `Writer.U32` appends `u32b`. -/
theorem wU32_bytes (v : Nat) (w : WState) : (wU32 v w).bytes = w.bytes ++ u32b v := rfl

/-- `Writer.U64` appends `u64b`. -/
theorem wU64_bytes (v : Nat) (w : WState) : (wU64 v w).bytes = w.bytes ++ u64b v := rfl

/-- `Writer.Bool` leaves the byte region unchanged. -/
theorem wBool_bytes (b : Bool) (w : WState) : (wBool b w).bytes = w.bytes := rfl

/-- `Writer.FixedBytes` appends its (byte-truncated) argument. -/
theorem wFixed_bytes (l : List Nat) (w : WState) :
    (wFixed l w).bytes = w.bytes ++ l.map (· % 256) := rfl

/-- `Writer.I64` appends the magnitude bytes `i64b`. -/
theorem wI64_bytes (v : Int) (w : WState) : (wI64 v w).bytes = w.bytes ++ i64b v := by
  by_cases h : v < 0 <;> simp [wI64, wBool, wU64, writeU64bits, i64b, u64b, h]

/-- A successful `Writer.U56` appends `u56b`. -/
theorem wU56_ok_bytes (v : Nat) (w w' : WState) (h : wU56 v w = .ok w') :
    w'.bytes = w.bytes ++ u56b v := by
  unfold wU56 at h
  split at h
  · exact absurd h (by simp)
  · simp only [Except.ok.injEq] at h
    rw [← h, writeU64bits_bytes]
    rfl

/-- A successful `Writer.SliceBytes` appends the U56 length bytes then the
raw bytes. -/
theorem wSliceBytes_ok_bytes (l : List Nat) (w w' : WState)
    (h : wSliceBytes l w = .ok w') :
    w'.bytes = w.bytes ++ u56b l.length ++ l.map (· % 256) := by
  unfold wSliceBytes at h
  cases hu : wU56 l.length w with
  | error e => rw [hu] at h; exact absurd h (by simp)
  | ok w1 =>
    rw [hu] at h
    simp only [Except.ok.injEq] at h
    rw [← h, wFixed_bytes, wU56_ok_bytes l.length w w1 hu]

/-- A successful encoder parents loop appends `parentsB`. -/
theorem marshalParents_ok_bytes (eL : Nat) :
    ∀ (ps : List (List Nat)) (w w' : WState),
      marshalParents eL ps w = .ok w' → w'.bytes = w.bytes ++ parentsB eL ps := by
  intro ps
  induction ps with
  | nil =>
    intro w w' h
    simp only [marshalParents, Except.ok.injEq] at h
    simp [← h, parentsB]
  | cons p ps ih =>
    intro w w' h
    unfold marshalParents at h
    split at h
    · exact absurd h (by simp)
    · have := ih _ _ h
      rw [this, wFixed_bytes, wU32_bytes]
      simp [parentsB, List.append_assoc]

/-- On success, the event-header encoder's byte region factors into the
pre-hash fields, the conditional 32-byte payload hash, and the extra-data
slice. -/
theorem eventMarshal_bytes_decomposition (e : EventHdr) (w w' : WState)
    (h : eventMarshalCSER e w = .ok w') :
    w'.bytes = w.bytes ++ eventHeaderBytesPreHash e ++
      (if e.anyTxs || e.anyMps || e.anyBlockVotes || e.anyEpochVote
       then e.payloadHash.map (· % 256) else []) ++
      u56b e.extra.length ++ e.extra.map (· % 256) := by
  unfold eventMarshalCSER at h
  by_cases hv : 0 < e.version % 256
  · simp only [hv, if_pos, if_neg, if_true, if_false, reduceIte] at h
    split at h
    · simp at h
    · rename_i wP hP
      have hPB := marshalParents_ok_bytes e.lamport e.parents _ _ hP
      simp only [wBool_bytes, wFixed_bytes, wU8_bytes, wU16_bytes, wU32_bytes,
        wU64_bytes, wI64_bytes] at hPB
      rcases hpe : e.prevEpochHash with _ | hsh <;>
        by_cases hf : (e.anyTxs || e.anyMps || e.anyBlockVotes || e.anyEpochVote) = true <;>
        simp only [hpe, hf, if_pos, if_neg, if_true, if_false, reduceIte,
          Bool.not_eq_true] at h <;>
        have hSB := wSliceBytes_ok_bytes _ _ _ h <;>
        simp only [wBool_bytes, wFixed_bytes] at hSB <;>
        rw [hSB, hPB] <;>
        simp [eventHeaderBytesPreHash, hv, hf, hpe, List.append_assoc]
  · simp only [hv, if_pos, if_neg, if_true, if_false, reduceIte] at h
    by_cases he : e.epoch % 2 ^ 32 < 256
    · simp only [he, if_pos, reduceIte] at h
      simp at h
    · simp only [he, if_pos, if_neg, if_true, if_false, reduceIte] at h
      split at h
      · simp at h
      · rename_i wP hP
        have hPB := marshalParents_ok_bytes e.lamport e.parents _ _ hP
        simp only [wBool_bytes, wFixed_bytes, wU8_bytes, wU16_bytes, wU32_bytes,
          wU64_bytes, wI64_bytes] at hPB
        rcases hpe : e.prevEpochHash with _ | hsh <;>
          by_cases hf : (e.anyTxs || e.anyMps || e.anyBlockVotes || e.anyEpochVote) = true <;>
          simp only [hpe, hf, if_pos, if_neg, if_true, if_false, reduceIte,
            Bool.not_eq_true] at h <;>
          have hSB := wSliceBytes_ok_bytes _ _ _ h <;>
          simp only [wBool_bytes, wFixed_bytes] at hSB <;>
          rw [hSB, hPB] <;>
          simp [eventHeaderBytesPreHash, hv, hf, hpe, List.append_assoc]

/-- On every successful header decode with any payload flag set, the decoded
payload hash differs from the empty-payload hash for the decoded version. -/
theorem eventUnmarshal_payloadHash_ne_empty (s : RState) (d : DecEvent) (s' : RState)
    (h : eventUnmarshalCSER s = .ok (d, s'))
    (hflags : (d.anyTxs || d.anyMps || d.anyEpochVote || d.anyBlockVotes) = true) :
    d.payloadHash ≠ emptyPayloadHash d.version := by
  unfold eventUnmarshalCSER at h
  obtain ⟨marker, s1, h1, h⟩ := dbind_ok h
  obtain ⟨version, s2, h2, h⟩ := dbind_ok h
  by_cases hv : maxSerializationVersion < version
  · rw [if_pos hv] at h; exact absurd h (by simp [dfail])
  rw [if_neg hv] at h
  obtain ⟨netForkID, s3, h3, h⟩ := dbind_ok h
  obtain ⟨epoch, s4, h4, h⟩ := dbind_ok h
  obtain ⟨lamport, s5, h5, h⟩ := dbind_ok h
  obtain ⟨creator, s6, h6, h⟩ := dbind_ok h
  obtain ⟨seq, s7, h7, h⟩ := dbind_ok h
  obtain ⟨frame, s8, h8, h⟩ := dbind_ok h
  obtain ⟨creationTime, s9, h9, h⟩ := dbind_ok h
  obtain ⟨medianTimeDiff, s10, h10, h⟩ := dbind_ok h
  obtain ⟨gasPowerUsed, s11, h11, h⟩ := dbind_ok h
  obtain ⟨gpl0, s12, h12, h⟩ := dbind_ok h
  obtain ⟨gpl1, s13, h13, h⟩ := dbind_ok h
  obtain ⟨parentsNum, s14, h14, h⟩ := dbind_ok h
  by_cases hp : protocolMaxMsgSize / 24 < parentsNum
  · rw [if_pos hp] at h; exact absurd h (by simp [dfail])
  rw [if_neg hp] at h
  obtain ⟨parents, s15, h15, h⟩ := dbind_ok h
  obtain ⟨hasPrev, s16, h16, h⟩ := dbind_ok h
  obtain ⟨prevEpochHash, s17, h17, h⟩ := dbind_ok h
  obtain ⟨anyTxs, s18, h18, h⟩ := dbind_ok h
  obtain ⟨anyMps, s19, h19, h⟩ := dbind_ok h
  obtain ⟨anyEpochVote, s20, h20, h⟩ := dbind_ok h
  obtain ⟨anyBlockVotes, s21, h21, h⟩ := dbind_ok h
  obtain ⟨payloadHash, s22, h22, h⟩ := dbind_ok h
  obtain ⟨extra, s23, h23, h⟩ := dbind_ok h
  by_cases hlow : version = 0 ∧ epoch < 256
  · rw [if_pos hlow] at h; exact absurd h (by simp [dfail])
  rw [if_neg hlow] at h
  unfold dpure at h
  have hd : d = ⟨version, netForkID, epoch, lamport, creator, seq, frame,
      creationTime, u64OfI64 (toI64 creationTime - medianTimeDiff),
      gasPowerUsed, gpl0, gpl1, parents, prevEpochHash, anyTxs, anyMps,
      anyEpochVote, anyBlockVotes, payloadHash, extra⟩ :=
    ((Prod.mk.inj (Except.ok.inj h)).1).symm
  rw [hd] at hflags ⊢
  simp only at hflags ⊢
  rw [if_pos hflags] at h22
  obtain ⟨ph, s22a, hr, hin⟩ := dbind_ok h22
  by_cases heq : ph = emptyPayloadHash version
  · rw [if_pos heq] at hin; exact absurd hin (by simp [dfail])
  · rw [if_neg heq] at hin
    unfold dpure at hin
    have hpe : payloadHash = ph := (Prod.mk.inj (Except.ok.inj hin)).1.symm
    rw [hpe]
    exact heq

/-- Claim C5: in every encoded event header the 32-byte payload-hash field is
present — i.e. contributes its 32 bytes to the byte region, between the
pre-hash fields and the extra-data slice — iff at least one of the flags
{txs, mps, epoch_vote, block_votes} is set; and the decoder rejects any
header whose flags are set but whose transmitted payload hash equals the
empty-payload hash for its version: on every successful decode with a flag
set, the decoded hash differs from the empty-payload hash. -/
theorem claim_C5_payload_hash_presence :
    (∀ (e : EventHdr) (w w' : WState), eventMarshalCSER e w = .ok w' →
       w'.bytes = w.bytes ++ eventHeaderBytesPreHash e ++
         (if e.anyTxs || e.anyMps || e.anyBlockVotes || e.anyEpochVote
          then e.payloadHash.map (· % 256) else []) ++
         u56b e.extra.length ++ e.extra.map (· % 256)) ∧
    (∀ (s : RState) (d : DecEvent) (s' : RState),
       eventUnmarshalCSER s = .ok (d, s') →
       (d.anyTxs || d.anyMps || d.anyEpochVote || d.anyBlockVotes) = true →
       d.payloadHash ≠ emptyPayloadHash d.version) :=
  ⟨eventMarshal_bytes_decomposition, eventUnmarshal_payloadHash_ne_empty⟩

/-- Claim C5, witness: the flagged event `eW` (txs flag set) marshals with
its payload hash in the byte region, and the decode of its streams carries a
payload hash different from the empty-payload hash. -/
theorem claim_C5_witness :
    (wW.bytes = WState.fresh.bytes ++ eventHeaderBytesPreHash eW ++
       (if eW.anyTxs || eW.anyMps || eW.anyBlockVotes || eW.anyEpochVote
        then eW.payloadHash.map (· % 256) else []) ++
       u56b eW.extra.length ++ eW.extra.map (· % 256)) ∧
    c5dec.payloadHash ≠ emptyPayloadHash c5dec.version := by
  constructor
  · refine claim_C5_payload_hash_presence.1 eW WState.fresh wW ?_
    simp [eventMarshalCSER, marshalParents, parentLamport, beVal, WState.fresh,
      BitsWriter.fresh, wU8, wU16, wU32, wU64, wU56, wI64, wBool, wFixed,
      wSliceBytes, writeU64bits, writeUint64BitCompact, writeUint64BitCompactAux,
      BitsWriter.write, BitsWriter.writeAux, BitsWriter.writeIntoLast,
      toI64, wrapI64, eW, wW, Nat.lor, Nat.bitwise]
  · refine claim_C5_payload_hash_presence.2 c5s c5dec c5s2 ?_ (by decide)
    simp [eventUnmarshalCSER, dview, dbits, dbind, dpure, dfail, rU8, rU16, rU32,
      rU64, rI64, rU56, rBool, rFixed, dbytes, readU64bits, readUint64BitCompact,
      leVal, BitsReader.read, BitsReader.readAux, BitsReader.view, readParents,
      readParent, rSliceBytes, ByteReader.read, ByteReader.readByte,
      emptyPayloadHash, maxSerializationVersion, protocolMaxMsgSize, u64OfI64,
      toI64, c5s, c5dec, c5s2, Nat.lor, Nat.bitwise]

theorem lor_high_mod64 : ∀ x < 256, ∀ z < 4, Nat.lor x (z * 64) % 64 = x % 64 := by decide

theorem wUBCAux_size_le : ∀ (fuel k v minSize : Nat), v < 256 ^ k → minSize ≤ k →
    (writeUint64BitCompactAux fuel v minSize).2 ≤ k := by
  intro fuel
  induction fuel with
  | zero => intro k v m _ _; simp [writeUint64BitCompactAux]
  | succ fuel ih =>
    intro k v m hv hm
    unfold writeUint64BitCompactAux
    split
    · simp
    · rename_i hcond
      cases k with
      | zero =>
        exfalso
        have hv0 : v = 0 := by
          have : v < 1 := by simpa using hv
          omega
        exact hcond ⟨Nat.le_zero.mp hm, hv0⟩
      | succ k =>
        have h1 : v / 256 < 256 ^ k := by
          apply Nat.div_lt_of_lt_mul
          rw [pow_succ, Nat.mul_comm] at hv
          exact hv
        have h2 := ih k (v / 256) (m - 1) h1 (by omega)
        simpa using Nat.succ_le_succ h2

theorem wUBC_size_le8 (v : Nat) : (writeUint64BitCompact v 1).2 ≤ 8 := by
  apply wUBCAux_size_le
  · have : (256 : Nat) ^ 8 = 2 ^ 64 := by norm_num
    rw [this]
    exact Nat.mod_lt _ (by norm_num)
  · norm_num

theorem wUBC_size_pos (v : Nat) : 1 ≤ (writeUint64BitCompact v 1).2 := by
  unfold writeUint64BitCompact
  have hf : 1 + v % 2 ^ 64 + 1 = (v % 2 ^ 64 + 1) + 1 := by omega
  rw [hf]
  unfold writeUint64BitCompactAux
  simp

theorem wUBC_size_ge2 (v : Nat) (h : 255 < v % 2 ^ 64) :
    2 ≤ (writeUint64BitCompact v 1).2 := by
  unfold writeUint64BitCompact
  have hf : 1 + v % 2 ^ 64 + 1 = (v % 2 ^ 64 + 1) + 1 := by omega
  rw [hf]
  unfold writeUint64BitCompactAux
  simp only [Nat.one_ne_zero, false_and, if_false, reduceIte]
  have hd : v % 2 ^ 64 / 256 ≠ 0 := by
    have h256 : 256 ≤ v % 2 ^ 64 := by omega
    exact Nat.pos_iff_ne_zero.mp (Nat.div_pos h256 (by norm_num))
  norm_num at hd
  simp [hd]
  unfold writeUint64BitCompactAux
  simp [hd]

theorem lor_low3_high :
    ∀ a < 8, ∀ b < 8, (Nat.lor 0 (a % 256)).lor (b * 8 % 256) = a + b * 8 := by decide

theorem two_writes_fresh (a b : Nat) (ha : a ≤ 7) (hb : b ≤ 7) :
    (BitsWriter.fresh.write 3 a).write 3 b = ⟨[a + b * 8], 6⟩ := by
  simp [BitsWriter.write, BitsWriter.writeAux, BitsWriter.writeIntoLast,
    BitsWriter.fresh, Nat.shiftLeft_eq]
  exact lor_low3_high a (by omega) b (by omega)

theorem lor_high_lt_256 : ∀ x < 256, ∀ z < 4, Nat.lor x (z * 64) < 256 := by decide

theorem dvd64_shift_mod (v off : Nat) (h : 6 ≤ off) : (64 : Nat) ∣ v <<< off % 256 := by
  have h1 : (64 : Nat) ∣ v <<< off := by
    rw [Nat.shiftLeft_eq]
    exact Dvd.dvd.mul_left (pow_dvd_pow 2 h) v
  exact (Nat.dvd_mod_iff (by norm_num)).mpr h1

theorem writeIntoLast_facts (w : BitsWriter) (v : Nat) (hne : w.bytes ≠ []) :
    (BitsWriter.writeIntoLast w v).bytes.length = w.bytes.length ∧
    (BitsWriter.writeIntoLast w v).bitOff = w.bitOff ∧
    (2 ≤ w.bytes.length →
      (BitsWriter.writeIntoLast w v).bytes.headD 0 = w.bytes.headD 0) ∧
    (w.bytes.length = 1 →
      (BitsWriter.writeIntoLast w v).bytes.headD 0 =
        Nat.lor (w.bytes.headD 0) (v <<< w.bitOff % 256)) := by
  obtain ⟨bytes, off⟩ := w
  cases bytes with
  | nil => exact absurd rfl hne
  | cons h t =>
    cases t with
    | nil =>
      refine ⟨by simp [BitsWriter.writeIntoLast], by simp [BitsWriter.writeIntoLast], ?_, ?_⟩
      · intro h2; simp at h2
      · intro _; simp [BitsWriter.writeIntoLast]
    | cons h2 t2 =>
      refine ⟨by simp [BitsWriter.writeIntoLast], by simp [BitsWriter.writeIntoLast], ?_, ?_⟩
      · intro _
        simp [BitsWriter.writeIntoLast]
      · intro hlen; simp at hlen

theorem write3_preserves (wb : List Nat) (off v : Nat)
    (h1 : wb ≠ []) (h2 : wb.headD 0 < 256)
    (h3 : off = 0 ∨ 6 ≤ off ∨ 2 ≤ wb.length) :
    ((BitsWriter.mk wb off).write 3 v).bytes.headD 0 % 64 = wb.headD 0 % 64 ∧
    ((BitsWriter.mk wb off).write 3 v).bytes ≠ [] ∧
    ((BitsWriter.mk wb off).write 3 v).bytes.headD 0 < 256 ∧
    (((BitsWriter.mk wb off).write 3 v).bitOff = 0 ∨
     6 ≤ ((BitsWriter.mk wb off).write 3 v).bitOff ∨
     2 ≤ ((BitsWriter.mk wb off).write 3 v).bytes.length) := by
  obtain ⟨b, t, rfl⟩ : ∃ b t, wb = b :: t := by
    cases wb with
    | nil => exact absurd rfl h1
    | cons b t => exact ⟨b, t, rfl⟩
  simp only [List.headD] at h2 ⊢
  by_cases h8 : 8 ≤ off
  · have hz : ¬(off = 0) := by omega
    simp [BitsWriter.write, BitsWriter.writeAux, hz, h8, List.headD]
    omega
  · by_cases hz : off = 0
    · subst hz
      simp [BitsWriter.write, BitsWriter.writeAux, BitsWriter.writeIntoLast,
        List.headD, List.length_set]
      omega
    · -- 1 ≤ off ≤ 7
      by_cases h6 : 6 ≤ off
      · -- off ∈ {6, 7}: the write spills across the byte boundary
        have h7 : off = 6 ∨ off = 7 := by omega
        rcases h7 with rfl | rfl <;> rcases t with _ | ⟨b2, t2⟩ <;>
          simp [BitsWriter.write, BitsWriter.writeAux, BitsWriter.writeIntoLast,
            List.headD, List.length_set, List.set, Nat.shiftLeft_eq]
        · have hv : v % 4 < 4 := Nat.mod_lt _ (by norm_num)
          rw [Nat.mod_eq_of_lt (by omega : v % 4 * 64 < 256)]
          exact ⟨lor_high_mod64 b h2 (v % 4) hv, lor_high_lt_256 b h2 (v % 4) hv⟩
        · exact h2
        · have hv : v % 2 * 2 < 4 := by omega
          have hrw : v % 2 * 128 % 256 = v % 2 * 2 * 64 := by omega
          rw [hrw]
          exact ⟨lor_high_mod64 b h2 (v % 2 * 2) hv, lor_high_lt_256 b h2 (v % 2 * 2) hv⟩
        · exact h2
      · -- 1 ≤ off ≤ 5: fits in the current byte, which has at least 2 bytes
        have hlen2 : 2 ≤ (b :: t).length := by
          rcases h3 with h | h | h <;> omega
        rcases t with _ | ⟨b2, t2⟩
        · simp at hlen2
        · by_cases h5 : off = 5
          · subst h5
            simp [BitsWriter.write, BitsWriter.writeAux, BitsWriter.writeIntoLast,
              List.headD, List.length_set, List.set]
            exact h2
          · have hc1 : 3 ≤ 8 - off := by omega
            have hc2 : ¬(3 = 8 - off) := by omega
            simp [BitsWriter.write, BitsWriter.writeAux, BitsWriter.writeIntoLast,
              List.headD, List.length_set, List.set, hz, h8, hc1, hc2]
            exact h2

theorem write1_preserves (wb : List Nat) (off v : Nat)
    (h1 : wb ≠ []) (h2 : wb.headD 0 < 256)
    (h3 : off = 0 ∨ 6 ≤ off ∨ 2 ≤ wb.length) :
    ((BitsWriter.mk wb off).write 1 v).bytes.headD 0 % 64 = wb.headD 0 % 64 ∧
    ((BitsWriter.mk wb off).write 1 v).bytes ≠ [] ∧
    ((BitsWriter.mk wb off).write 1 v).bytes.headD 0 < 256 ∧
    (((BitsWriter.mk wb off).write 1 v).bitOff = 0 ∨
     6 ≤ ((BitsWriter.mk wb off).write 1 v).bitOff ∨
     2 ≤ ((BitsWriter.mk wb off).write 1 v).bytes.length) := by
  obtain ⟨b, t, rfl⟩ : ∃ b t, wb = b :: t := by
    cases wb with
    | nil => exact absurd rfl h1
    | cons b t => exact ⟨b, t, rfl⟩
  simp only [List.headD] at h2 ⊢
  by_cases h8 : 8 ≤ off
  · have hz : ¬(off = 0) := by omega
    simp [BitsWriter.write, BitsWriter.writeAux, hz, h8, List.headD]
    omega
  · by_cases hz : off = 0
    · subst hz
      simp [BitsWriter.write, BitsWriter.writeAux, BitsWriter.writeIntoLast,
        List.headD, List.length_set]
      omega
    · by_cases h6 : 6 ≤ off
      · have h7 : off = 6 ∨ off = 7 := by omega
        rcases h7 with rfl | rfl <;> rcases t with _ | ⟨b2, t2⟩ <;>
          simp [BitsWriter.write, BitsWriter.writeAux, BitsWriter.writeIntoLast,
            List.headD, List.length_set, List.set, Nat.shiftLeft_eq]
        · have hv : v % 4 < 4 := Nat.mod_lt _ (by norm_num)
          have hrw : v * 64 % 256 = v % 4 * 64 := by omega
          rw [hrw]
          exact ⟨lor_high_mod64 b h2 (v % 4) hv, lor_high_lt_256 b h2 (v % 4) hv⟩
        · exact h2
        · have hv : v % 2 * 2 < 4 := by omega
          have hrw : v * 128 % 256 = v % 2 * 2 * 64 := by omega
          rw [hrw]
          exact ⟨lor_high_mod64 b h2 (v % 2 * 2) hv, lor_high_lt_256 b h2 (v % 2 * 2) hv⟩
        · exact h2
      · have hlen2 : 2 ≤ (b :: t).length := by
          rcases h3 with h | h | h <;> omega
        rcases t with _ | ⟨b2, t2⟩
        · simp at hlen2
        · have hc1 : 1 ≤ 8 - off := by omega
          have hc2 : ¬(1 = 8 - off) := by omega
          simp [BitsWriter.write, BitsWriter.writeAux, BitsWriter.writeIntoLast,
            List.headD, List.length_set, List.set, hz, h8, hc1, hc2]
          exact h2

theorem wSliceBytes_ok_bits (l : List Nat) (w w' : WState)
    (h : wSliceBytes l w = .ok w') : ∃ n, w'.bits = w.bits.write 3 n := by
  unfold wSliceBytes at h
  cases hu : wU56 l.length w with
  | error e => rw [hu] at h; exact absurd h (by simp)
  | ok w1 =>
    rw [hu] at h
    simp only [Except.ok.injEq] at h
    unfold wU56 at hu
    split at hu
    · exact absurd hu (by simp)
    · simp only [Except.ok.injEq] at hu
      exact ⟨_, by rw [← h, ← hu]; rfl⟩

theorem wBigInt_ok_bits (v : Nat) (w w' : WState)
    (h : wBigInt v w = .ok w') : ∃ n, w'.bits = w.bits.write 3 n :=
  wSliceBytes_ok_bits _ _ _ h

theorem head_inv_write3 (b : BitsWriter) (v K : Nat)
    (h1 : b.bytes ≠ []) (h2 : b.bytes.headD 0 < 256)
    (h3 : b.bitOff = 0 ∨ 6 ≤ b.bitOff ∨ 2 ≤ b.bytes.length)
    (h4 : b.bytes.headD 0 % 64 = K) :
    (b.write 3 v).bytes ≠ [] ∧ (b.write 3 v).bytes.headD 0 < 256 ∧
      ((b.write 3 v).bitOff = 0 ∨ 6 ≤ (b.write 3 v).bitOff ∨
        2 ≤ (b.write 3 v).bytes.length) ∧
      (b.write 3 v).bytes.headD 0 % 64 = K := by
  obtain ⟨wb, off⟩ := b
  obtain ⟨p1, p2, p3, p4⟩ := write3_preserves wb off v h1 h2 h3
  exact ⟨p2, p3, p4, by rw [p1]; exact h4⟩

theorem head_inv_write1 (b : BitsWriter) (v K : Nat)
    (h1 : b.bytes ≠ []) (h2 : b.bytes.headD 0 < 256)
    (h3 : b.bitOff = 0 ∨ 6 ≤ b.bitOff ∨ 2 ≤ b.bytes.length)
    (h4 : b.bytes.headD 0 % 64 = K) :
    (b.write 1 v).bytes ≠ [] ∧ (b.write 1 v).bytes.headD 0 < 256 ∧
      ((b.write 1 v).bitOff = 0 ∨ 6 ≤ (b.write 1 v).bitOff ∨
        2 ≤ (b.write 1 v).bytes.length) ∧
      (b.write 1 v).bytes.headD 0 % 64 = K := by
  obtain ⟨wb, off⟩ := b
  obtain ⟨p1, p2, p3, p4⟩ := write1_preserves wb off v h1 h2 h3
  exact ⟨p2, p3, p4, by rw [p1]; exact h4⟩

theorem view6_eval (b : Nat) (t : List Nat) (hlt : b < 256) :
    BitsReader.view ⟨b :: t, 0, 0⟩ 6 = .ok (b % 64) := by
  simp [BitsReader.view, BitsReader.read, BitsReader.readAux, Nat.mod_eq_of_lt hlt]

theorem txBits_view (K c n1 n2 n4 n5 : Nat) (w3 w4 w5 w6 w7 wf : WState)
    (hKlt : K < 64) (hKne : K ≠ 0)
    (h3b : w3.bits = (BitsWriter.mk [K] 6).write 3 n1)
    (h4b : w4.bits = w3.bits.write 3 n2)
    (h5b : w5.bits = w4.bits.write 1 c)
    (h6b : w6.bits = w5.bits.write 3 n4)
    (h7b : w7.bits = w6.bits.write 3 n5)
    (hwb : wf.bits = w7.bits) :
    ∃ m, BitsReader.view ⟨wf.bits.bytes, 0, 0⟩ 6 = .ok m ∧ m ≠ 0 := by
  have i1 := head_inv_write3 (BitsWriter.mk [K] 6) n1 K (by simp)
    (by show K < 256; omega) (Or.inr (Or.inl le_rfl)) (Nat.mod_eq_of_lt hKlt)
  rw [← h3b] at i1
  have i2 := head_inv_write3 w3.bits n2 K i1.1 i1.2.1 i1.2.2.1 i1.2.2.2
  rw [← h4b] at i2
  have i3 := head_inv_write1 w4.bits c K i2.1 i2.2.1 i2.2.2.1 i2.2.2.2
  rw [← h5b] at i3
  have i4 := head_inv_write3 w5.bits n4 K i3.1 i3.2.1 i3.2.2.1 i3.2.2.2
  rw [← h6b] at i4
  have i5 := head_inv_write3 w6.bits n5 K i4.1 i4.2.1 i4.2.2.1 i4.2.2.2
  rw [← h7b] at i5
  obtain ⟨hne, hlt, hoff, hmod⟩ := i5
  obtain ⟨b, t, hbt⟩ : ∃ b t, w7.bits.bytes = b :: t := by
    cases hbb : w7.bits.bytes with
    | nil => exact absurd hbb hne
    | cons b t => exact ⟨b, t, rfl⟩
  rw [hbt] at hlt hmod
  simp only [List.headD] at hlt hmod
  refine ⟨K, ?_, hKne⟩
  rw [hwb, hbt, view6_eval b t hlt, hmod]

theorem txMarshal_legacy_view6 (tx : Tx) (w' : WState)
    (h0 : tx.txType = 0) (h : transactionMarshalCSER tx WState.fresh = .ok w') :
    ∃ m, BitsReader.view ⟨w'.bits.bytes, 0, 0⟩ 6 = .ok m ∧ m ≠ 0 := by
  unfold transactionMarshalCSER at h
  simp only [h0] at h
  rw [if_neg (by norm_num)] at h
  rw [if_neg (by norm_num)] at h
  by_cases hg : tx.gas % 2 ^ 64 ≤ 255
  · rw [if_pos hg] at h
    exact absurd h (by simp)
  · rw [if_neg hg] at h
    have hgas : 255 < tx.gas % 2 ^ 64 := not_le.mp hg
    have hsn8 : (writeUint64BitCompact (tx.nonce % 2 ^ 64) 1).2 ≤ 8 := wUBC_size_le8 _
    have hsn1 : 1 ≤ (writeUint64BitCompact (tx.nonce % 2 ^ 64) 1).2 := wUBC_size_pos _
    have hsg8 : (writeUint64BitCompact (tx.gas % 2 ^ 64) 1).2 ≤ 8 := wUBC_size_le8 _
    have hsg2 : 2 ≤ (writeUint64BitCompact (tx.gas % 2 ^ 64) 1).2 :=
      wUBC_size_ge2 _ (by rw [Nat.mod_mod_of_dvd _ dvd_rfl]; exact hgas)
    have hupair : (wU64 tx.gas (wU64 tx.nonce WState.fresh)).bits =
        (BitsWriter.fresh.write 3 ((writeUint64BitCompact (tx.nonce % 2 ^ 64) 1).2 - 1)).write
          3 ((writeUint64BitCompact (tx.gas % 2 ^ 64) 1).2 - 1) := rfl
    have hKw := two_writes_fresh ((writeUint64BitCompact (tx.nonce % 2 ^ 64) 1).2 - 1)
      ((writeUint64BitCompact (tx.gas % 2 ^ 64) 1).2 - 1) (by omega) (by omega)
    simp at h
    cases hta : tx.toAddr with
    | none =>
      rw [hta] at h
      simp at h
      split at h
      · exact absurd h (by simp)
      · rename_i w3 hgp
        split at h
        · exact absurd h (by simp)
        · rename_i w4 hval
          split at h
          · exact absurd h (by simp)
          · rename_i w6 hsd
            split at h
            · exact absurd h (by simp)
            · rename_i w7 hvs
              simp only [Except.ok.injEq] at h
              obtain ⟨n1, hb3⟩ := wBigInt_ok_bits _ _ _ hgp
              obtain ⟨n2, hb4⟩ := wBigInt_ok_bits _ _ _ hval
              obtain ⟨n4, hb6⟩ := wSliceBytes_ok_bits _ _ _ hsd
              obtain ⟨n5, hb7⟩ := wBigInt_ok_bits _ _ _ hvs
              rw [hupair, hKw] at hb3
              exact txBits_view _ _ _ _ _ _ _ _ _ _ _ _ (by omega) (by omega)
                hb3 hb4 rfl hb6 hb7 (by rw [← h]; rfl)
    | some a =>
      rw [hta] at h
      simp at h
      split at h
      · exact absurd h (by simp)
      · rename_i w3 hgp
        split at h
        · exact absurd h (by simp)
        · rename_i w4 hval
          split at h
          · exact absurd h (by simp)
          · rename_i w6 hsd
            split at h
            · exact absurd h (by simp)
            · rename_i w7 hvs
              simp only [Except.ok.injEq] at h
              obtain ⟨n1, hb3⟩ := wBigInt_ok_bits _ _ _ hgp
              obtain ⟨n2, hb4⟩ := wBigInt_ok_bits _ _ _ hval
              obtain ⟨n4, hb6⟩ := wSliceBytes_ok_bits _ _ _ hsd
              obtain ⟨n5, hb7⟩ := wBigInt_ok_bits _ _ _ hvs
              rw [hupair, hKw] at hb3
              exact txBits_view _ _ _ _ _ _ _ _ _ _ _ _ (by omega) (by omega)
                hb3 hb4 rfl hb6 hb7 (by rw [← h]; rfl)

/-- Claim C7 (amended): the decoder peeks 6 bits of the bit stream; a zero
marker is consumed and followed by a U8 type byte that must lie in {0, 1, 2}
(a type byte 0 after a zero marker is accepted and decodes as the *legacy*
variant, refuting the claimed {1, 2}), while a non-zero marker dispatches to
legacy with no bits consumed.  Encoding a legacy transaction with
gas ≤ 0xFF fails with the legacy-gas error before producing output, and
every legacy transaction successfully encoded from a fresh writer starts
with six non-zero bits, so decoding its encoding dispatches to the legacy
variant. -/
theorem claim_C7_amended :
    (∀ tx : Tx, tx.txType = 0 → tx.gas % 2 ^ 64 ≤ 0xff →
      transactionMarshalCSER tx WState.fresh = .error (.errF .legacyGasTooLow)) ∧
    (∀ (tx : Tx) (w' : WState), tx.txType = 0 →
      transactionMarshalCSER tx WState.fresh = .ok w' →
      ∃ m, BitsReader.view ⟨w'.bits.bytes, 0, 0⟩ 6 = .ok m ∧ m ≠ 0) ∧
    (∀ (s s' : RState) (t : Tx), transactionUnmarshalCSER s = .ok (t, s') →
      (t.txType = 0 ∨ t.txType = 1 ∨ t.txType = 2) ∧
      (∀ marker s1, dview 6 s = .ok (marker, s1) → marker ≠ 0 → t.txType = 0)) := by
  refine ⟨?_, fun tx w' h0 h => txMarshal_legacy_view6 tx w' h0 h, ?_⟩
  · intro tx h0 hg
    unfold transactionMarshalCSER
    simp only [h0]
    rw [if_neg (by norm_num), if_neg (by norm_num), if_pos hg]
  · intro s s' t h
    unfold transactionUnmarshalCSER at h
    obtain ⟨marker, s1, hview, h⟩ := dbind_ok h
    obtain ⟨ty, s2, hty, h⟩ := dbind_ok h
    obtain ⟨nonce, s3, hn, h⟩ := dbind_ok h
    obtain ⟨gasL, s4x, hga, h⟩ := dbind_ok h
    obtain ⟨fees, s5, hf, h⟩ := dbind_ok h
    obtain ⟨amount, s6, ham, h⟩ := dbind_ok h
    obtain ⟨toEx, s7, hte, h⟩ := dbind_ok h
    obtain ⟨toA, s8, hto, h⟩ := dbind_ok h
    obtain ⟨dat, s9, hda, h⟩ := dbind_ok h
    obtain ⟨v, s10, hv2, h⟩ := dbind_ok h
    obtain ⟨sig, s11, hsg, h⟩ := dbind_ok h
    by_cases ht0 : ty = 0
    · rw [if_pos ht0] at h
      simp only [dpure, Except.ok.injEq, Prod.mk.injEq] at h
      have htt : t.txType = 0 := by rw [← h.1]
      exact ⟨Or.inl htt, fun m1 u0 hv1 hm1 => htt⟩
    · rw [if_neg ht0] at h
      by_cases ht12 : ty = 1 ∨ ty = 2
      · rw [if_pos ht12] at h
        obtain ⟨cid, u1, hc, h⟩ := dbind_ok h
        obtain ⟨alen, u2, hal, h⟩ := dbind_ok h
        split at h
        · exact absurd h (by simp [dfail])
        · obtain ⟨alist, u3, hali, h⟩ := dbind_ok h
          have hmarker : ∀ m1 u0, dview 6 s = .ok (m1, u0) → m1 ≠ 0 → t.txType = 0 := by
            intro m1 u0 hv1 hm1
            rw [hview] at hv1
            simp only [Except.ok.injEq, Prod.mk.injEq] at hv1
            have hmne : marker ≠ 0 := by rw [hv1.1]; exact hm1
            rw [if_neg hmne] at hty
            simp only [dpure, Except.ok.injEq, Prod.mk.injEq] at hty
            exact absurd hty.1.symm ht0
          refine ⟨?_, hmarker⟩
          by_cases h1 : ty = 1
          · rw [if_pos h1] at h
            simp only [dpure, Except.ok.injEq, Prod.mk.injEq] at h
            refine Or.inr (Or.inl ?_)
            rw [← h.1]
          · rw [if_neg h1] at h
            simp only [dpure, Except.ok.injEq, Prod.mk.injEq] at h
            refine Or.inr (Or.inr ?_)
            rw [← h.1]
      · rw [if_neg ht12] at h
        exact absurd h (by simp [dfail])

/-- Witness for C7: the legacy transaction `txLow` (gas 1) fails to encode
with the legacy-gas error; `tx4` (gas 256) encodes to `tx4w`, whose first six
bits read back as 8 ≠ 0; decoding `s4` (the reader over `tx4`'s encoding)
yields a transaction whose type lies in {0, 1, 2} and — the marker being
8 ≠ 0 — is legacy. -/
theorem claim_C7_witness :
    transactionMarshalCSER txLow WState.fresh = .error (.errF .legacyGasTooLow) ∧
    (∃ m, BitsReader.view ⟨tx4w.bits.bytes, 0, 0⟩ 6 = .ok m ∧ m ≠ 0) ∧
    (tx4.txType = 0 ∨ tx4.txType = 1 ∨ tx4.txType = 2) ∧ tx4.txType = 0 := by
  have henc : transactionMarshalCSER tx4 WState.fresh = .ok tx4w := by
    simp [transactionMarshalCSER, tx4, tx4w, WState.fresh, BitsWriter.fresh,
      wU8, wU16, wU32, wU64, wU56, wI64, wBool, wFixed, wSliceBytes, wBigInt,
      writeU64bits, writeUint64BitCompact, writeUint64BitCompactAux,
      BitsWriter.write, BitsWriter.writeAux, BitsWriter.writeIntoLast,
      natToBeBytes, natToBeBytesAux, encodeSig, paddedBytes,
      marshalAccessList, Nat.lor, Nat.bitwise]
  have hdec : transactionUnmarshalCSER s4 = .ok (tx4, s4end) := by
    simp [transactionUnmarshalCSER, s4, s4end, tx4, dview, dbits, dbind, dpure,
      dfail, rU8, rU16, rU32, rU64, rI64, rU56, rBool, rFixed, dbytes,
      readU64bits, readUint64BitCompact, leVal, BitsReader.read,
      BitsReader.readAux, BitsReader.view, rSliceBytes, rBigInt, beVal,
      decodeSig, ByteReader.read, ByteReader.readByte, protocolMaxMsgSize,
      Nat.lor, Nat.bitwise]
  have hview : dview 6 s4 = .ok (8, s4) := by
    simp [dview, BitsReader.view, BitsReader.read, BitsReader.readAux, s4,
      Nat.lor, Nat.bitwise]
  exact ⟨claim_C7_amended.1 txLow rfl (by decide),
         claim_C7_amended.2.1 tx4 tx4w rfl henc,
         (claim_C7_amended.2.2 s4 s4end tx4 hdec).1,
         (claim_C7_amended.2.2 s4 s4end tx4 hdec).2 8 s4 hview (by decide)⟩
